import Mathlib

set_option maxHeartbeats 1000000

set_option allowUnsafeReducibility true
attribute [semireducible] Rat.add Rat.mul Rat.sub Rat.inv Rat.neg Rat.div

/- Verification development for the voxely acceleration structures:
   the SAH bounding volume hierarchy of src/bvh.h and the sparse 64-ary
   voxel tree of src/tree/s64tree.h, shallowly embedded over exact
   rational arithmetic (floats are modelled as rationals; machine float
   rounding is outside the model). -/

/-- Modelled from the spec: the 3-component float vector type from
wrapper/core.h, which is not part of the sources; components are modelled
as exact rationals. -/
structure Vec3 where
  x : ℚ
  y : ℚ
  z : ℚ
deriving DecidableEq, Repr

/-- Modelled from the spec: the vec3 constructor from wrapper/core.h. -/
def vec3 (a b c : ℚ) : Vec3 := ⟨a, b, c⟩

/-- Modelled from the spec: componentwise vector addition from wrapper/core.h. -/
def add (a b : Vec3) : Vec3 := ⟨a.x + b.x, a.y + b.y, a.z + b.z⟩

/-- Modelled from the spec: componentwise vector subtraction from wrapper/core.h. -/
def sub (a b : Vec3) : Vec3 := ⟨a.x - b.x, a.y - b.y, a.z - b.z⟩

/-- Modelled from the spec: vector-times-scalar product from wrapper/core.h. -/
def mul (a : Vec3) (s : ℚ) : Vec3 := ⟨a.x * s, a.y * s, a.z * s⟩

/-- Modelled from the spec: euclidean dot product from wrapper/core.h. -/
def dot (a b : Vec3) : ℚ := a.x * b.x + a.y * b.y + a.z * b.z

/-- Modelled from the spec: cross product from wrapper/core.h. -/
def cross (a b : Vec3) : Vec3 :=
  ⟨a.y * b.z - a.z * b.y, a.z * b.x - a.x * b.z, a.x * b.y - a.y * b.x⟩

/-- Rational stand-in for sqrtf: exact on rationals whose numerator and
denominator are perfect squares (the only place it is used, normalization,
is opaque to every property proved below). -/
def qsqrt (q : ℚ) : ℚ := (Nat.sqrt q.num.toNat : ℚ) / (Nat.sqrt q.den : ℚ)

/-- Modelled from the spec: normalize from wrapper/core.h (division of a
vector by its length). -/
def norm (v : Vec3) : Vec3 :=
  let len := qsqrt (dot v v)
  ⟨v.x / len, v.y / len, v.z / len⟩

/-- Modelled from the spec: the per-triangle color payload is opaque to the
acceleration structures (copied, never interpreted), so it is modelled as a
bare identifier. -/
abbrev Material := ℕ

/-- Triangle with three vertex positions (bvh.h expects it from wrapper/core.h). -/
structure Triangle where
  v0 : Vec3
  v1 : Vec3
  v2 : Vec3
deriving DecidableEq, Repr

/-- Ray type used by the BVH (bvh.h): origin, direction and the precomputed
componentwise inverse direction. -/
structure BvhRay where
  origin : Vec3
  direction : Vec3
  inv_direction : Vec3

/-- Hit record mutated in place by the BVH traversal (bvh.h). -/
structure HitRecord where
  hit : Bool
  t : ℚ
  point : Vec3
  normal : Vec3
  mat : Material
  color : Vec3
deriving DecidableEq

/-- EPSILON from bvh.h (0.0001f). -/
def EPSILON : ℚ := 1 / 10000

/-- STACK_SIZE from bvh.h. -/
def STACK_SIZE : ℕ := 1028

/-- LEAF_SIZE from bvh.h. -/
def LEAF_SIZE : ℕ := 4

/-- FLT_MAX, the initial best-cost sentinel in the SAH split search. -/
def FLT_MAX : ℚ := 340282346638528859811704183484516925440

/-- Modelled from the spec: fabsf, absolute value. -/
def fabsf (q : ℚ) : ℚ := if q < 0 then -q else q

/-- Modelled from the spec: fminf, the smaller of two scalars. -/
def fminf (a b : ℚ) : ℚ := if a < b then a else b

/-- Modelled from the spec: fmaxf, the larger of two scalars. -/
def fmaxf (a b : ℚ) : ℚ := if a < b then b else a

/-- Edge 1 of a triangle, v1 - v0 (intersect_triangle in bvh.h). -/
def triEdge1 (tri : Triangle) : Vec3 := sub tri.v1 tri.v0

/-- Edge 2 of a triangle, v2 - v0 (intersect_triangle in bvh.h). -/
def triEdge2 (tri : Triangle) : Vec3 := sub tri.v2 tri.v0

/-- The vector h = cross(direction, edge2) of intersect_triangle. -/
def triH (ray : BvhRay) (tri : Triangle) : Vec3 := cross ray.direction (triEdge2 tri)

/-- The determinant a = dot(edge1, h) of intersect_triangle. -/
def triA (ray : BvhRay) (tri : Triangle) : ℚ := dot (triEdge1 tri) (triH ray tri)

/-- The factor f = 1/a of intersect_triangle (in the rational model 1/0 = 0;
that case is rejected by the determinant guard before f is ever used). -/
def triF (ray : BvhRay) (tri : Triangle) : ℚ := 1 / triA ray tri

/-- The vector s = origin - v0 of intersect_triangle. -/
def triS (ray : BvhRay) (tri : Triangle) : Vec3 := sub ray.origin tri.v0

/-- Barycentric coordinate u = f * dot(s, h) of intersect_triangle. -/
def triU (ray : BvhRay) (tri : Triangle) : ℚ :=
  triF ray tri * dot (triS ray tri) (triH ray tri)

/-- The vector q = cross(s, edge1) of intersect_triangle. -/
def triQ (ray : BvhRay) (tri : Triangle) : Vec3 := cross (triS ray tri) (triEdge1 tri)

/-- Barycentric coordinate v = f * dot(direction, q) of intersect_triangle. -/
def triV (ray : BvhRay) (tri : Triangle) : ℚ :=
  triF ray tri * dot ray.direction (triQ ray tri)

/-- Ray parameter t = f * dot(edge2, q) of intersect_triangle. -/
def triT (ray : BvhRay) (tri : Triangle) : ℚ :=
  triF ray tri * dot (triEdge2 tri) (triQ ray tri)

/-- The record written by intersect_triangle on acceptance: hit, t, point,
normal and material are assigned; the color field is not touched. -/
def hitWrite (ray : BvhRay) (tri : Triangle) (mat : Material) (rec : HitRecord) :
    HitRecord :=
  { hit := true
    t := triT ray tri
    point := add ray.origin (mul ray.direction (triT ray tri))
    normal := norm (cross (triEdge1 tri) (triEdge2 tri))
    mat := mat
    color := rec.color }

/-- intersect_triangle from bvh.h: Moeller-Trumbore with early rejects; on
acceptance the hit record is updated and true is returned. -/
def intersect_triangle (ray : BvhRay) (tri : Triangle) (mat : Material)
    (rec : HitRecord) : Bool × HitRecord :=
  if fabsf (triA ray tri) < 1 / 1000000 then (false, rec)
  else if triU ray tri < 0 ∨ triU ray tri > 1 then (false, rec)
  else if triV ray tri < 0 ∨ triU ray tri + triV ray tri > 1 then (false, rec)
  else if triT ray tri < EPSILON ∨ triT ray tri ≥ rec.t then (false, rec)
  else (true, hitWrite ray tri mat rec)

/-- Full acceptance condition of intersect_triangle against a given current
best parameter tlim. -/
def triAccept (ray : BvhRay) (tri : Triangle) (tlim : ℚ) : Prop :=
  1 / 1000000 ≤ fabsf (triA ray tri) ∧
  0 ≤ triU ray tri ∧ triU ray tri ≤ 1 ∧
  0 ≤ triV ray tri ∧ triU ray tri + triV ray tri ≤ 1 ∧
  EPSILON ≤ triT ray tri ∧ triT ray tri < tlim

instance (ray : BvhRay) (tri : Triangle) (tlim : ℚ) :
    Decidable (triAccept ray tri tlim) := by
  unfold triAccept; infer_instance

/-- Characterization of intersect_triangle: it accepts exactly under
triAccept, in which case it writes hitWrite, and otherwise leaves the
record untouched. -/
theorem intersect_triangle_eq (ray : BvhRay) (tri : Triangle) (mat : Material)
    (rec : HitRecord) :
    intersect_triangle ray tri mat rec =
      if triAccept ray tri rec.t then (true, hitWrite ray tri mat rec)
      else (false, rec) := by
  by_cases hacc : triAccept ray tri rec.t
  · rw [if_pos hacc]
    obtain ⟨h1, h2, h3, h4, h5, h6, h7⟩ := hacc
    unfold intersect_triangle
    rw [if_neg (not_lt.mpr h1),
        if_neg (by push_neg; exact ⟨h2, h3⟩),
        if_neg (by push_neg; exact ⟨h4, h5⟩),
        if_neg (by push_neg; exact ⟨h6, h7⟩)]
  · rw [if_neg hacc]
    unfold intersect_triangle
    split_ifs with h1 h2 h3 h4
    · rfl
    · rfl
    · rfl
    · rfl
    · exfalso
      push_neg at h1 h2 h3 h4
      exact hacc ⟨not_lt.mp (by simpa using h1), h2.1, h2.2, h3.1, h3.2, h4.1, h4.2⟩

/-- C3: intersect_triangle accepts exactly when the determinant, barycentric,
epsilon and current-best conditions all hold, and on acceptance it writes
hit = true, the ray parameter t, point = origin + t * direction, the
unconditional winding normal normalize(cross(edge1, edge2)), and the copied
material. -/
theorem c3_triangle_acceptance (ray : BvhRay) (tri : Triangle) (mat : Material)
    (rec : HitRecord) :
    ((intersect_triangle ray tri mat rec).1 = true ↔ triAccept ray tri rec.t) ∧
    (triAccept ray tri rec.t →
      (intersect_triangle ray tri mat rec).2 =
        { hit := true
          t := triT ray tri
          point := add ray.origin (mul ray.direction (triT ray tri))
          normal := norm (cross (triEdge1 tri) (triEdge2 tri))
          mat := mat
          color := rec.color }) := by
  constructor
  · rw [intersect_triangle_eq]
    by_cases h : triAccept ray tri rec.t <;> simp [h]
  · intro h
    rw [intersect_triangle_eq, if_pos h]
    rfl

/-- Witness for C3: a concrete accepted intersection (the unit-square front
face of the spec scenario, ray from (0,0,5) toward (0,0,-1)). -/
theorem c3_triangle_acceptance_witness :
    ((intersect_triangle
        ⟨vec3 0 0 5, vec3 0 0 (-1), vec3 0 0 (-1)⟩
        ⟨vec3 (-1) (-1) 0, vec3 1 (-1) 0, vec3 (-1) 1 0⟩
        3 ⟨false, 1000000000000000000000000000000, vec3 0 0 0, vec3 0 0 0, 0, vec3 0 0 0⟩).1 = true ↔
      triAccept ⟨vec3 0 0 5, vec3 0 0 (-1), vec3 0 0 (-1)⟩
        ⟨vec3 (-1) (-1) 0, vec3 1 (-1) 0, vec3 (-1) 1 0⟩
        (⟨false, 1000000000000000000000000000000, vec3 0 0 0, vec3 0 0 0, 0, vec3 0 0 0⟩ : HitRecord).t) ∧
    (triAccept ⟨vec3 0 0 5, vec3 0 0 (-1), vec3 0 0 (-1)⟩
        ⟨vec3 (-1) (-1) 0, vec3 1 (-1) 0, vec3 (-1) 1 0⟩
        (⟨false, 1000000000000000000000000000000, vec3 0 0 0, vec3 0 0 0, 0, vec3 0 0 0⟩ : HitRecord).t →
      (intersect_triangle
        ⟨vec3 0 0 5, vec3 0 0 (-1), vec3 0 0 (-1)⟩
        ⟨vec3 (-1) (-1) 0, vec3 1 (-1) 0, vec3 (-1) 1 0⟩
        3 ⟨false, 1000000000000000000000000000000, vec3 0 0 0, vec3 0 0 0, 0, vec3 0 0 0⟩).2 =
        { hit := true
          t := triT ⟨vec3 0 0 5, vec3 0 0 (-1), vec3 0 0 (-1)⟩
                 ⟨vec3 (-1) (-1) 0, vec3 1 (-1) 0, vec3 (-1) 1 0⟩
          point := add (vec3 0 0 5) (mul (vec3 0 0 (-1))
                 (triT ⟨vec3 0 0 5, vec3 0 0 (-1), vec3 0 0 (-1)⟩
                   ⟨vec3 (-1) (-1) 0, vec3 1 (-1) 0, vec3 (-1) 1 0⟩))
          normal := norm (cross
                 (triEdge1 ⟨vec3 (-1) (-1) 0, vec3 1 (-1) 0, vec3 (-1) 1 0⟩)
                 (triEdge2 ⟨vec3 (-1) (-1) 0, vec3 1 (-1) 0, vec3 (-1) 1 0⟩))
          mat := 3
          color := (vec3 0 0 0) }) :=
  c3_triangle_acceptance _ _ _ _

/-- C10: whenever intersect_triangle returns false the hit record is
completely unchanged. -/
theorem c10_reject_leaves_record (ray : BvhRay) (tri : Triangle) (mat : Material)
    (rec : HitRecord) :
    (intersect_triangle ray tri mat rec).1 = false →
    (intersect_triangle ray tri mat rec).2 = rec := by
  rw [intersect_triangle_eq]
  by_cases h : triAccept ray tri rec.t <;> simp [h]

/-- Witness for C10: a concrete rejected intersection (ray parallel to the
triangle plane) leaves the record unchanged. -/
theorem c10_reject_leaves_record_witness :
    (intersect_triangle
        ⟨vec3 0 0 5, vec3 1 0 0, vec3 1 0 0⟩
        ⟨vec3 (-1) (-1) 0, vec3 1 (-1) 0, vec3 (-1) 1 0⟩
        3 ⟨false, 1000000000000000000000000000000, vec3 0 0 0, vec3 0 0 0, 0, vec3 0 0 0⟩).1 = false ∧
    (intersect_triangle
        ⟨vec3 0 0 5, vec3 1 0 0, vec3 1 0 0⟩
        ⟨vec3 (-1) (-1) 0, vec3 1 (-1) 0, vec3 (-1) 1 0⟩
        3 ⟨false, 1000000000000000000000000000000, vec3 0 0 0, vec3 0 0 0, 0, vec3 0 0 0⟩).2 =
      ⟨false, 1000000000000000000000000000000, vec3 0 0 0, vec3 0 0 0, 0, vec3 0 0 0⟩ := by
  refine ⟨by decide, c10_reject_leaves_record _ _ _ _ (by decide)⟩

/-- Axis-aligned bounding box (bvh.h). -/
structure AABB where
  min : Vec3
  max : Vec3
deriving DecidableEq, Repr

/-- box_tri from bvh.h: componentwise min/max bounding box of a triangle. -/
def box_tri (t : Triangle) : AABB :=
  { min := ⟨fminf (fminf t.v0.x t.v1.x) t.v2.x,
            fminf (fminf t.v0.y t.v1.y) t.v2.y,
            fminf (fminf t.v0.z t.v1.z) t.v2.z⟩
    max := ⟨fmaxf (fmaxf t.v0.x t.v1.x) t.v2.x,
            fmaxf (fmaxf t.v0.y t.v1.y) t.v2.y,
            fmaxf (fmaxf t.v0.z t.v1.z) t.v2.z⟩ }

/-- box_merge from bvh.h: componentwise union of two boxes. -/
def box_merge (a b : AABB) : AABB :=
  { min := ⟨fminf a.min.x b.min.x, fminf a.min.y b.min.y, fminf a.min.z b.min.z⟩
    max := ⟨fmaxf a.max.x b.max.x, fmaxf a.max.y b.max.y, fmaxf a.max.z b.max.z⟩ }

/-- box_surface_area from bvh.h. -/
def box_surface_area (box : AABB) : ℚ :=
  let dx := box.max.x - box.min.x
  let dy := box.max.y - box.min.y
  let dz := box.max.z - box.min.z
  2 * (dx * dy + dy * dz + dz * dx)

/-- box_hit from bvh.h: slab test with precomputed inverse direction,
narrowed to the interval [tmin, tmax]. -/
def box_hit (box : AABB) (r : BvhRay) (tmin tmax : ℚ) : Bool :=
  let t0x := (box.min.x - r.origin.x) * r.inv_direction.x
  let t1x := (box.max.x - r.origin.x) * r.inv_direction.x
  let t0y := (box.min.y - r.origin.y) * r.inv_direction.y
  let t1y := (box.max.y - r.origin.y) * r.inv_direction.y
  let t0z := (box.min.z - r.origin.z) * r.inv_direction.z
  let t1z := (box.max.z - r.origin.z) * r.inv_direction.z
  let tmin1 := fmaxf tmin (fminf t0x t1x)
  let tmin2 := fmaxf tmin1 (fminf t0y t1y)
  let tmin3 := fmaxf tmin2 (fminf t0z t1z)
  let tmax1 := fminf tmax (fmaxf t0x t1x)
  let tmax2 := fminf tmax1 (fmaxf t0y t1y)
  let tmax3 := fminf tmax2 (fmaxf t0z t1z)
  decide (tmin3 ≤ tmax3)

/-- Item of the BVH builder (bvh.h): triangle, material and precomputed
centroid. -/
structure Item where
  tri : Triangle
  mat : Material
  center : Vec3
deriving DecidableEq

/-- BVH tree node (bvh.h). The C struct distinguishes leaves by count > 0;
the embedding uses an inductive. A leaf owns parallel triangle/material
arrays; an internal node owns exactly two children. -/
inductive BVHNode where
  | leaf (bounds : AABB) (tris : List Triangle) (mats : List Material)
  | node (bounds : AABB) (left : BVHNode) (right : BVHNode)
deriving DecidableEq

/-- The bounding box stored in a node. -/
def BVHNode.bounds : BVHNode → AABB
  | .leaf b _ _ => b
  | .node b _ _ => b

/-- Node count of a subtree (termination measure for the traversal). -/
def BVHNode.size : BVHNode → ℕ
  | .leaf _ _ _ => 1
  | .node _ l r => 1 + l.size + r.size

/-- Number of internal nodes of a subtree. -/
def BVHNode.inner : BVHNode → ℕ
  | .leaf _ _ _ => 0
  | .node _ l r => 1 + l.inner + r.inner

/-- The node bounds computed by build in bvh.h: box_tri of the first item
merged with the boxes of the remaining items. -/
def itemsBounds (items : List Item) : AABB :=
  match items with
  | [] => ⟨vec3 0 0 0, vec3 0 0 0⟩
  | it :: rest => rest.foldl (fun b j => box_merge b (box_tri j.tri)) (box_tri it.tri)

/-- The comparator family cmp_x / cmp_y / cmp_z from bvh.h, as a total
preorder on items by centroid coordinate along the chosen axis. -/
def itemLe (axis : ℕ) (a b : Item) : Bool :=
  match axis with
  | 0 => decide (a.center.x ≤ b.center.x)
  | 1 => decide (a.center.y ≤ b.center.y)
  | _ => decide (a.center.z ≤ b.center.z)

/-- The split-axis choice of build in bvh.h: the axis of largest extent,
X beating Y on ties and Z only strictly exceeding the winner. -/
def splitAxis (extent : Vec3) : ℕ :=
  let axis := if extent.x < extent.y then 1 else 0
  let cur := if axis = 1 then extent.y else extent.x
  if cur < extent.z then 2 else axis

/-- SAH cost of splitting the (sorted) item range before position split:
surfaceArea(left) * split + surfaceArea(right) * (n - split). -/
def sahCost (items : List Item) (n split : ℕ) : ℚ :=
  box_surface_area (itemsBounds (items.take split)) * (split : ℚ) +
  box_surface_area (itemsBounds (items.drop split)) * ((n - split : ℕ) : ℚ)

/-- num_buckets of the SAH loop in bvh.h: n when n < 16, else 16. -/
def sahBuckets (n : ℕ) : ℕ := if n < 16 then n else 16

/-- One iteration of the SAH candidate loop in bvh.h: skip candidates at the
extremes, otherwise keep the candidate when its cost strictly improves. -/
def sahStep (items : List Item) (n : ℕ) (best : ℚ × ℕ) (i : ℕ) : ℚ × ℕ :=
  if (n * i) / sahBuckets n = 0 ∨ n ≤ (n * i) / sahBuckets n then best
  else if sahCost items n ((n * i) / sahBuckets n) < best.1 then
    (sahCost items n ((n * i) / sahBuckets n), (n * i) / sahBuckets n)
  else best

/-- The SAH candidate-split loop of build in bvh.h: up to 16 uniformly
binned candidate positions i = 1 .. num_buckets-1, initialized to the
midpoint n/2 with an FLT_MAX cost sentinel. -/
def sahSplit (items : List Item) (n : ℕ) : ℕ :=
  (((List.range (sahBuckets n)).drop 1).foldl (sahStep items n) (FLT_MAX, n / 2)).2

/-- A fold preserves any invariant of its state that every step preserves. -/
theorem foldl_inv {α : Type _} {β : Type _} (P : β → Prop) (f : β → α → β)
    (l : List α) (b : β) (hb : P b) (hf : ∀ b a, P b → P (f b a)) :
    P (l.foldl f b) := by
  induction l generalizing b with
  | nil => exact hb
  | cons a l ih => exact ih (f b a) (hf b a hb)

/-- Every state of the SAH fold keeps its split strictly between 0 and n, so
the chosen split position always cuts off a nonempty strict sub-range. -/
theorem sahSplit_bounds (items : List Item) (n : ℕ) (h5 : 5 ≤ n) :
    1 ≤ sahSplit items n ∧ sahSplit items n < n := by
  unfold sahSplit
  exact foldl_inv (fun best : ℚ × ℕ => 1 ≤ best.2 ∧ best.2 < n) _ _ _
    (by constructor <;> omega)
    (by
      intro b a hb
      unfold sahStep
      by_cases hs : (n * a) / sahBuckets n = 0 ∨ n ≤ (n * a) / sahBuckets n
      · rw [if_pos hs]; exact hb
      · rw [if_neg hs]
        push_neg at hs
        by_cases hc : sahCost items n ((n * a) / sahBuckets n) < b.1
        · rw [if_pos hc]
          exact ⟨Nat.pos_of_ne_zero hs.1, hs.2⟩
        · rw [if_neg hc]; exact hb)

/-- The split axis chosen by build for an item range: largest extent of the
range bounds, Z only on strict excess. -/
def buildAxis (items : List Item) : ℕ :=
  splitAxis (sub (itemsBounds items).max (itemsBounds items).min)

/-- The item range after the qsort call in build. The C code sorts with
qsort, whose permutation among equal keys is unspecified; the model uses a
stable sort by the same centroid comparator. -/
def buildSorted (items : List Item) : List Item :=
  items.mergeSort (itemLe (buildAxis items))

/-- The split position chosen by build for an item range. -/
def buildSplit (items : List Item) : ℕ :=
  sahSplit (buildSorted items) items.length

/-- Sorting does not change the number of items. -/
theorem buildSorted_length (items : List Item) :
    (buildSorted items).length = items.length := by
  unfold buildSorted
  exact List.length_mergeSort items

/-- The sorted range is a permutation of the range. -/
theorem buildSorted_perm (items : List Item) :
    (buildSorted items).Perm items := by
  unfold buildSorted
  exact List.mergeSort_perm items _

/-- On ranges larger than LEAF_SIZE the split cuts off nonempty strict
sub-ranges on both sides. -/
theorem buildSplit_bounds (items : List Item) (h : ¬ items.length ≤ LEAF_SIZE) :
    1 ≤ buildSplit items ∧ buildSplit items < items.length := by
  unfold buildSplit
  exact sahSplit_bounds _ _ (by unfold LEAF_SIZE at h; omega)

/-- build from bvh.h: compute the range bounds; at most LEAF_SIZE items
terminate as a leaf owning copies of the triangles and materials; otherwise
sort by centroid along the dominant axis, choose the SAH split and recurse
on the two sub-ranges. -/
def build (items : List Item) : BVHNode :=
  if h : items.length ≤ LEAF_SIZE then
    .leaf (itemsBounds items) (items.map Item.tri) (items.map Item.mat)
  else
    .node (itemsBounds items)
      (build ((buildSorted items).take (buildSplit items)))
      (build ((buildSorted items).drop (buildSplit items)))
termination_by items.length
decreasing_by
  · obtain ⟨h1, h2⟩ := buildSplit_bounds items h
    simp [List.length_take, buildSorted_length]
    omega
  · obtain ⟨h1, h2⟩ := buildSplit_bounds items h
    simp [List.length_drop, buildSorted_length]
    omega

/-- The Model input of bvh_build (core.h): a list of transformed triangles
and a single material shared by the whole model. -/
structure Model where
  transformed_triangles : List Triangle
  mat : Material

/-- The item created by bvh_build for one triangle of a model: triangle,
model material, and the centroid (vertex average). -/
def itemOfTri (m : Model) (t : Triangle) : Item :=
  { tri := t
    mat := m.mat
    center := vec3 ((t.v0.x + t.v1.x + t.v2.x) / 3)
                   ((t.v0.y + t.v1.y + t.v2.y) / 3)
                   ((t.v0.z + t.v1.z + t.v2.z) / 3) }

/-- The flat item array assembled by bvh_build from all models in order. -/
def modelItems (ms : List Model) : List Item :=
  ms.foldr (fun m acc => m.transformed_triangles.map (itemOfTri m) ++ acc) []

/-- bvh_build from bvh.h: flatten all models into the item array and build. -/
def bvh_build (ms : List Model) : BVHNode := build (modelItems ms)

/-- The leaf loop of bvh_intersect: test every contained triangle in order,
threading the record and accumulating the hit flag. -/
def runTris (ray : BvhRay) (l : List (Triangle × Material)) (rec : HitRecord)
    (hitacc : Bool) : Bool × HitRecord :=
  l.foldl (fun acc p =>
    ((intersect_triangle ray p.1 p.2 acc.2).1 || acc.1,
      (intersect_triangle ray p.1 p.2 acc.2).2)) (hitacc, rec)

/-- Total size of all subtrees on the traversal stack (termination measure). -/
def stackWeight (stack : List BVHNode) : ℕ := (stack.map BVHNode.size).sum

/-- Every subtree has at least one node. -/
theorem BVHNode.size_pos (n : BVHNode) : 1 ≤ n.size := by
  cases n <;> simp [BVHNode.size] <;> omega


/-- The iterative stack loop of bvh_intersect from bvh.h. The head of the
list is the top of the stack; popping an internal node pushes left then
right (so the right child is popped first) unless that would exceed
STACK_SIZE, in which case both children are silently dropped. The pruning
test `bh b rec.t` abstracts the call box_hit b ray 0.001 rec.t of the
source (the loop is stated for any such test; bvh_intersect instantiates
it with box_hit at the fixed ray and tmin = 0.001). -/
def bvhLoop (bh : AABB → ℚ → Bool) (ray : BvhRay) :
    List BVHNode → HitRecord → Bool → Bool × HitRecord
  | [], rec, hitacc => (hitacc, rec)
  | .leaf b tris mats :: rest, rec, hitacc =>
    if bh b rec.t then
      bvhLoop bh ray rest (runTris ray (tris.zip mats) rec hitacc).2
        (runTris ray (tris.zip mats) rec hitacc).1
    else bvhLoop bh ray rest rec hitacc
  | .node b lft rgt :: rest, rec, hitacc =>
    if bh b rec.t then
      if rest.length + 2 < STACK_SIZE then
        bvhLoop bh ray (rgt :: lft :: rest) rec hitacc
      else
        bvhLoop bh ray rest rec hitacc
    else bvhLoop bh ray rest rec hitacc
termination_by stack _ _ => stackWeight stack
decreasing_by
  all_goals first
    | (simp [stackWeight, BVHNode.size]; done)
    | (simp [stackWeight, BVHNode.size]; omega)
    | (simp [stackWeight, BVHNode.size]; omega)

/-- bvh_intersect from bvh.h: iterative traversal starting from a stack
holding only the root, with the hit flag initially false. -/
def bvh_intersect (root : BVHNode) (ray : BvhRay) (rec : HitRecord) :
    Bool × HitRecord :=
  bvhLoop (fun b t => box_hit b ray (1 / 1000) t) ray [root] rec false

/-- Brute force reference: test every triangle of the flat item list in
order against the same initial record (the comparison oracle named by the
spec for the closest-hit property). -/
def bruteForce (ray : BvhRay) (items : List Item) (rec : HitRecord) :
    Bool × HitRecord :=
  runTris ray (items.map fun it => (it.tri, it.mat)) rec false

/-- Floor of a rational as an integer (std::floor in s64tree.h); the
denominator is positive, so flooring division gives the mathematical floor. -/
def qfloor (q : ℚ) : ℤ := Int.fdiv q.num (q.den : ℤ)

/-- std::clamp on integers (s64tree.h). -/
def iclamp (v lo hi : ℤ) : ℤ := if v < lo then lo else if hi < v then hi else v

/-- Ray for the S64 traversal (s64tree.h): origin, direction, inverse
direction. -/
structure S64Ray where
  origin : Vec3
  dir : Vec3
  inv_dir : Vec3

/-- Hit output of the S64 traversal (s64tree.h). -/
structure S64Hit where
  hit : Bool
  t : ℚ
  point : Vec3
  normal : Vec3
  voxel_id : ℕ
deriving DecidableEq, Repr

/-- Node of the sparse 64-tree (s64tree.h): leaf flag, base index into the
node arena (internal) or the leaf-payload array (leaf), and the 64-bit
occupancy mask over the 4x4x4 cube with bit index x + z*4 + y*16. -/
structure S64Node where
  is_leaf : Bool
  child_ptr : ℕ
  child_mask : ℕ
deriving DecidableEq, Repr

/-- The sparse 64-tree (s64tree.h): node arena, packed per-voxel payload
bytes, world bounds and grid dimension. -/
structure S64Tree where
  node_pool : List S64Node
  leaf_data : List ℕ
  bmin : Vec3
  bmax : Vec3
  grid_size : ℕ

/-- s64_popcnt64 from s64tree.h (__builtin_popcountll on a 64-bit word):
the number of set bits among bit positions 0..63. -/
def s64_popcnt64 (v : ℕ) : ℕ := ((List.range 64).filter v.testBit).length

/-- s64_popcnt64_before from s64tree.h: number of set bits strictly below
idx; the C mask-and of (1 << idx) - 1 is the remainder modulo 2 ^ idx. -/
def s64_popcnt64_before (mask idx : ℕ) : ℕ :=
  if idx = 0 then 0 else s64_popcnt64 (mask % 2 ^ idx)

/-- s64_aabb_hit from s64tree.h: slab test; also returns the entry and exit
parameters through t0 and t1. -/
def s64_aabb_hit (o invd bmin bmax : Vec3) : Bool × ℚ × ℚ :=
  let tx0 := (bmin.x - o.x) * invd.x
  let tx1 := (bmax.x - o.x) * invd.x
  let ty0 := (bmin.y - o.y) * invd.y
  let ty1 := (bmax.y - o.y) * invd.y
  let tz0 := (bmin.z - o.z) * invd.z
  let tz1 := (bmax.z - o.z) * invd.z
  let tmn := fmaxf (fmaxf (fminf tx0 tx1) (fminf ty0 ty1)) (fminf tz0 tz1)
  let tmx := fminf (fminf (fmaxf tx0 tx1) (fmaxf ty0 ty1)) (fmaxf tz0 tz1)
  (decide (tmn ≤ tmx), tmn, tmx)

/-- s64_block_any from s64tree.h: linear occupancy scan of a cubic region of
the voxel grid; the grid pointer is modelled as a function from the flat
index (z*N + y)*N + x to the byte stored there. -/
def s64_block_any (voxels : ℕ → ℕ) (N x0 y0 z0 size : ℕ) : Bool :=
  (List.range size).any fun z =>
    (List.range size).any fun y =>
      (List.range size).any fun x =>
        voxels (((z0 + z) * N + (y0 + y)) * N + (x0 + x)) != 0

/-- A 64-bit mask built by OR-ing bit i for every i in 0..63 satisfying c;
both mask loops of s64tree.h iterate y, then z, then x, which visits the
bit indices i = x + z*4 + y*16 in increasing order, with x = i % 4,
z = i / 4 % 4 and y = i / 16 % 4. -/
def s64_mask_of (c : ℕ → Bool) : ℕ :=
  (List.range 64).foldl (fun m i => if c i then m ||| (1 <<< i) else m) 0

/-- The occupancy condition of the leaf mask loop of s64_leaf_mask_and_pack,
as a function of the bit index. -/
def s64_leaf_bit (voxels : ℕ → ℕ) (N x0 y0 z0 i : ℕ) : Bool :=
  voxels (((z0 + i / 4 % 4) * N + (y0 + i / 16 % 4)) * N + (x0 + i % 4)) != 0

/-- The mask computed by the first loop of s64_leaf_mask_and_pack. -/
def s64_leaf_mask (voxels : ℕ → ℕ) (N x0 y0 z0 : ℕ) : ℕ :=
  s64_mask_of (s64_leaf_bit voxels N x0 y0 z0)

/-- The bytes appended by the second loop of s64_leaf_mask_and_pack: for
each set mask bit in increasing bit order, the payload byte of the decoded
voxel. -/
def s64_leaf_pack (voxels : ℕ → ℕ) (N x0 y0 z0 mask : ℕ) : List ℕ :=
  (List.range 64).filterMap fun i =>
    if mask.testBit i then
      some (voxels (((z0 + i / 4 % 4) * N + (y0 + i / 16 % 4)) * N + (x0 + i % 4)))
    else none

/-- s64_leaf_mask_and_pack from s64tree.h: returns the leaf mask and the
leaf array extended with the packed payload bytes. -/
def s64_leaf_mask_and_pack (voxels : ℕ → ℕ) (N x0 y0 z0 : ℕ) (out : List ℕ) :
    ℕ × List ℕ :=
  (s64_leaf_mask voxels N x0 y0 z0,
   out ++ s64_leaf_pack voxels N x0 y0 z0 (s64_leaf_mask voxels N x0 y0 z0))

/-- Build-time state of the S64 tree: the growing node arena and leaf
payload array. -/
structure S64Build where
  node_pool : List S64Node
  leaf_data : List ℕ
deriving DecidableEq

/-- The occupancy condition of the internal mask loop of s64_build_inplace,
as a function of the bit index. -/
def s64_child_bit (voxels : ℕ → ℕ) (N x0 y0 z0 csize i : ℕ) : Bool :=
  s64_block_any voxels N (x0 + i % 4 * csize) (y0 + i / 16 % 4 * csize)
    (z0 + i / 4 % 4 * csize) csize

/-- The mask computed by the internal-node loop of s64_build_inplace. -/
def s64_child_mask (voxels : ℕ → ℕ) (N x0 y0 z0 csize : ℕ) : ℕ :=
  s64_mask_of (s64_child_bit voxels N x0 y0 z0 csize)

/-- A mask whose condition fails below 64 is zero. -/
theorem s64_mask_of_zero (c : ℕ → Bool) (hc : ∀ i, i < 64 → c i = false) :
    s64_mask_of c = 0 := by
  unfold s64_mask_of
  have : ∀ l : List ℕ, (∀ i ∈ l, c i = false) → l.foldl (fun m i => if c i then m ||| (1 <<< i) else m) 0 = 0 := by
    intro l
    induction l with
    | nil => intro _; rfl
    | cons a l ih =>
      intro hl
      simp only [List.foldl_cons, hl a (by simp), Bool.false_eq_true, if_false]
      exact ih fun i hi => hl i (by simp [hi])
  exact this _ fun i hi => hc i (List.mem_range.mp hi)

/-- A block scan over an empty extent finds nothing. -/
theorem s64_block_any_zero (voxels : ℕ → ℕ) (N x0 y0 z0 : ℕ) :
    s64_block_any voxels N x0 y0 z0 0 = false := rfl

/-- A nonzero internal mask forces a positive child size (used for
termination of the builder). -/
theorem s64_child_mask_pos (voxels : ℕ → ℕ) (N x0 y0 z0 csize : ℕ)
    (h : s64_child_mask voxels N x0 y0 z0 csize ≠ 0) : 0 < csize := by
  rcases Nat.eq_zero_or_pos csize with h0 | h0
  · exfalso
    apply h
    apply s64_mask_of_zero
    intro i _
    unfold s64_child_bit
    rw [h0]
    exact s64_block_any_zero _ _ _ _ _
  · exact h0

/-- s64_alloc_node from s64tree.h: append a zero node, return its index. -/
def s64_alloc_node (st : S64Build) : S64Build × ℕ :=
  ({ st with node_pool := st.node_pool ++ [⟨false, 0, 0⟩] }, st.node_pool.length)

mutual

/-- s64_build_inplace from s64tree.h: at size 4, pack a leaf (capturing the
leaf-array offset before packing); otherwise compute the 64-bit child mask
by scanning the 64 sub-octants, collapse to an empty node when the mask is
zero, and otherwise allocate popcount(mask) contiguous child slots and
recurse into each occupied sub-octant in increasing bit order. -/
def s64_build_inplace (voxels : ℕ → ℕ) (N : ℕ) (st : S64Build)
    (node_idx x0 y0 z0 size : ℕ) : S64Build × Bool :=
  if size = 4 then
    ({ node_pool := st.node_pool.set node_idx
          ⟨true, st.leaf_data.length,
            (s64_leaf_mask_and_pack voxels N x0 y0 z0 st.leaf_data).1⟩
       leaf_data := (s64_leaf_mask_and_pack voxels N x0 y0 z0 st.leaf_data).2 },
      (s64_leaf_mask_and_pack voxels N x0 y0 z0 st.leaf_data).1 != 0)
  else
    if hm : s64_child_mask voxels N x0 y0 z0 (size / 4) = 0 then
      ({ st with node_pool := st.node_pool.set node_idx ⟨false, 0, 0⟩ }, false)
    else
      (s64_build_children voxels N (size / 4)
        { node_pool :=
            (st.node_pool ++
              List.replicate
                (s64_popcnt64 (s64_child_mask voxels N x0 y0 z0 (size / 4)))
                (⟨false, 0, 0⟩ : S64Node)).set node_idx
              ⟨false, st.node_pool.length,
                s64_child_mask voxels N x0 y0 z0 (size / 4)⟩
          leaf_data := st.leaf_data }
        st.node_pool.length x0 y0 z0
        ((List.range 64).filter
          (fun i => (s64_child_mask voxels N x0 y0 z0 (size / 4)).testBit i))
        0,
       true)
termination_by (size, 0)
decreasing_by
  have h4 : 4 ≤ size := by
    have := s64_child_mask_pos voxels N x0 y0 z0 (size / 4) hm
    omega
  exact Prod.Lex.left _ _ (Nat.div_lt_self (by omega) (by omega))

/-- The recursion loop of s64_build_inplace over the occupied sub-octants,
assigning consecutive child slots in increasing bit order. -/
def s64_build_children (voxels : ℕ → ℕ) (N csize : ℕ) (st : S64Build)
    (first_child x0 y0 z0 : ℕ) (cs : List ℕ) (slot : ℕ) : S64Build :=
  match cs with
  | [] => st
  | ci :: rest =>
    s64_build_children voxels N csize
      (s64_build_inplace voxels N st (first_child + slot)
        (x0 + ci % 4 * csize) (y0 + ci / 16 % 4 * csize)
        (z0 + ci / 4 % 4 * csize) csize).1
      first_child x0 y0 z0 rest (slot + 1)
termination_by (csize, cs.length + 1)
decreasing_by
  · exact Prod.Lex.right _ (by simp only [List.length_cons]; omega)
  · exact Prod.Lex.right _ (by simp only [List.length_cons]; omega)

end

/-- s64tree_build from s64tree.h: allocate the root (index 0), build in
place from the whole grid, and force an all-empty grid to a zero-mask leaf
root. -/
def s64tree_build (voxels : ℕ → ℕ) (grid_size : ℕ) (bmin bmax : Vec3) :
    S64Tree :=
  let r := s64_build_inplace voxels grid_size (s64_alloc_node ⟨[], []⟩).1
    0 0 0 0 grid_size
  { node_pool := if r.2 then r.1.node_pool else r.1.node_pool.set 0 ⟨true, 0, 0⟩
    leaf_data := r.1.leaf_data
    bmin := bmin
    bmax := bmax
    grid_size := grid_size }

/-- Result of the descent loop of s64tree_intersect: the loop exits with the
final node, its index, the current cell bounds/size and the missing flag
(found); returns no-hit on a bounds-check failure (oob); or runs past the
given fuel (stuck, which for the C while loop means the descent is still
running after that many iterations; pool.length + 1 iterations are
sufficient for every pool whose internal nodes point past themselves, as
every pool built by s64tree_build does). -/
inductive S64Desc where
  | found (node : S64Node) (node_idx : ℕ) (cell_min : Vec3) (cell_size : ℚ) (missing : Bool)
  | oob
  | stuck
deriving DecidableEq, Repr

/-- The clamped local child x coordinate computed during descent and at the
leaf voxel test of s64tree_intersect. -/
def s64_cx (pos cell_min : Vec3) (child_size : ℚ) : ℤ :=
  iclamp (qfloor ((pos.x - cell_min.x) / child_size)) 0 3

/-- The clamped local child y coordinate. -/
def s64_cy (pos cell_min : Vec3) (child_size : ℚ) : ℤ :=
  iclamp (qfloor ((pos.y - cell_min.y) / child_size)) 0 3

/-- The clamped local child z coordinate. -/
def s64_cz (pos cell_min : Vec3) (child_size : ℚ) : ℤ :=
  iclamp (qfloor ((pos.z - cell_min.z) / child_size)) 0 3

/-- The 4x4x4 bit index cx + cz*4 + cy*16 computed from a position within a
cell (used both at internal levels and for the leaf voxel bit). -/
def s64_cellIdx (pos cell_min : Vec3) (child_size : ℚ) : ℕ :=
  (s64_cx pos cell_min child_size + s64_cz pos cell_min child_size * 4 +
   s64_cy pos cell_min child_size * 16).toNat

/-- The sub-cell origin selected by the child coordinates: cell_min plus the
componentwise child offset times the child size. -/
def s64_subMin (pos cell_min : Vec3) (child_size : ℚ) : Vec3 :=
  add cell_min (vec3 (s64_cx pos cell_min child_size * child_size)
    (s64_cy pos cell_min child_size * child_size)
    (s64_cz pos cell_min child_size * child_size))

/-- The while loop of s64tree_intersect descending from the current node at
the current position: compute the clamped 4x4x4 child coordinates from the
fractional position; on an unset mask bit record the empty quarter-size
sub-cell and exit with missing = true; otherwise locate the child slot by
popcount-prefix, bounds-check the child index (returning no-hit when it is
not below the pool size), shrink the cell and continue. -/
def s64_descend (pool : List S64Node) (pos : Vec3) (fuel : ℕ) (node : S64Node)
    (node_idx : ℕ) (cell_min : Vec3) (cell_size : ℚ) : S64Desc :=
  if node.is_leaf then .found node node_idx cell_min cell_size false
  else
    match fuel with
    | 0 => .stuck
    | fuel + 1 =>
      if ¬ node.child_mask.testBit (s64_cellIdx pos cell_min (cell_size * (1 / 4))) then
        .found node node_idx (s64_subMin pos cell_min (cell_size * (1 / 4)))
          (cell_size * (1 / 4)) true
      else
        if pool.length ≤ node.child_ptr +
            s64_popcnt64_before node.child_mask
              (s64_cellIdx pos cell_min (cell_size * (1 / 4))) then
          .oob
        else
          s64_descend pool pos fuel
            (pool.getD (node.child_ptr +
              s64_popcnt64_before node.child_mask
                (s64_cellIdx pos cell_min (cell_size * (1 / 4)))) ⟨false, 0, 0⟩)
            (node.child_ptr +
              s64_popcnt64_before node.child_mask
                (s64_cellIdx pos cell_min (cell_size * (1 / 4))))
            (s64_subMin pos cell_min (cell_size * (1 / 4)))
            (cell_size * (1 / 4))

/-- Outcome of one marching iteration of s64tree_intersect. -/
inductive S64March where
  | miss
  | hitAt (t : ℚ) (p : Vec3) (vid : ℕ)
deriving DecidableEq, Repr

/-- The cell-boundary step at the end of the marching loop of
s64tree_intersect: per-axis exit distance to the recorded cell's far face in
the ray's direction sign (a huge sentinel on a zero component), minimum,
forced to a small epsilon when not positive, advanced past the boundary by
another epsilon; none when the new parameter exceeds the overall exit t1. -/
def s64_step (ray : S64Ray) (t1 tcur : ℚ) (pos cell_min : Vec3)
    (cell_size : ℚ) : Option (ℚ × Vec3) :=
  let tx := if ray.dir.x > 0 then (cell_min.x + cell_size - pos.x) / ray.dir.x
    else if ray.dir.x < 0 then (cell_min.x - pos.x) / ray.dir.x
    else 1000000000000000000000000000000
  let ty := if ray.dir.y > 0 then (cell_min.y + cell_size - pos.y) / ray.dir.y
    else if ray.dir.y < 0 then (cell_min.y - pos.y) / ray.dir.y
    else 1000000000000000000000000000000
  let tz := if ray.dir.z > 0 then (cell_min.z + cell_size - pos.z) / ray.dir.z
    else if ray.dir.z < 0 then (cell_min.z - pos.z) / ray.dir.z
    else 1000000000000000000000000000000
  let dt0 := fminf tx (fminf ty tz)
  let dt := if ¬ dt0 > 0 then 1 / 10000 else dt0
  if tcur + dt + 1 / 10000 > t1 then none
  else some (tcur + dt + 1 / 10000,
    add ray.origin (mul ray.dir (tcur + dt + 1 / 10000)))

/-- The bounded marching loop of s64tree_intersect: descend from the root at
the current position; on a leaf with an occupied voxel bit return the hit
(after bounds-checking the popcount-indexed leaf offset, reporting no-hit
when it is not below the leaf-array size); otherwise advance to the recorded
cell boundary, reporting no-hit when the exit parameter is passed or the
iteration budget is exhausted. The Option is none when the inner descent
exceeds its fuel (possible only for malformed pools, where the C loop may
not terminate). -/
def s64_march (t : S64Tree) (ray : S64Ray) (t1 : ℚ) (fuel : ℕ) (tcur : ℚ)
    (pos : Vec3) : Option S64March :=
  match fuel with
  | 0 => some .miss
  | fuel + 1 =>
    match s64_descend t.node_pool pos (t.node_pool.length + 1)
        (t.node_pool.getD 0 ⟨false, 0, 0⟩) 0 t.bmin (t.bmax.x - t.bmin.x) with
    | .stuck => none
    | .oob => some .miss
    | .found node _ cell_min cell_size missing =>
      if node.is_leaf ∧ missing = false then
        if node.child_mask.testBit (s64_cellIdx pos cell_min (cell_size * (1 / 4))) then
          if t.leaf_data.length ≤ node.child_ptr +
              s64_popcnt64_before node.child_mask
                (s64_cellIdx pos cell_min (cell_size * (1 / 4))) then
            some .miss
          else
            some (.hitAt tcur pos
              (t.leaf_data.getD
                (node.child_ptr +
                  s64_popcnt64_before node.child_mask
                    (s64_cellIdx pos cell_min (cell_size * (1 / 4)))) 0))
        else
          match s64_step ray t1 tcur pos cell_min cell_size with
          | none => some .miss
          | some (tn, pn) => s64_march t ray t1 fuel tn pn
      else
        match s64_step ray t1 tcur pos cell_min cell_size with
        | none => some .miss
        | some (tn, pn) => s64_march t ray t1 fuel tn pn

/-- s64tree_intersect from s64tree.h: reset the output's hit, t and voxel_id
fields; reject an empty pool, a missed overall AABB, or a negative exit
parameter; then march from the (nonnegative) entry point with a budget of
512 iterations. The Option is none exactly when the inner descent loop runs
away on a malformed pool. -/
def s64tree_intersect (t : S64Tree) (ray : S64Ray) (out : S64Hit) :
    Option (Bool × S64Hit) :=
  let out0 : S64Hit :=
    { out with hit := false, t := 1000000000000000000000000000000, voxel_id := 0 }
  if t.node_pool.isEmpty then some (false, out0)
  else
    if ¬ (s64_aabb_hit ray.origin ray.inv_dir t.bmin t.bmax).1 then some (false, out0)
    else if (s64_aabb_hit ray.origin ray.inv_dir t.bmin t.bmax).2.2 < 0 then
      some (false, out0)
    else
      match s64_march t ray (s64_aabb_hit ray.origin ray.inv_dir t.bmin t.bmax).2.2
          512 (fmaxf (s64_aabb_hit ray.origin ray.inv_dir t.bmin t.bmax).2.1 0)
          (add ray.origin
            (mul ray.dir (fmaxf (s64_aabb_hit ray.origin ray.inv_dir t.bmin t.bmax).2.1 0))) with
      | none => none
      | some .miss => some (false, out0)
      | some (.hitAt tc p v) =>
        some (true, { hit := true, t := tc, point := p, normal := vec3 0 1 0, voxel_id := v })

/-- C2 counterexample: a two-level tree (grid 16, root internal with only
child bit 0 set) and a position inside the empty root child (2,0,0). The
descent records the quarter-size empty sub-cell (origin (8,0,0), size 4),
not the tested root cell (origin (0,0,0), size 16) that the claim names. -/
theorem c2_counterexample :
    s64_descend [⟨false, 1, 1⟩, ⟨true, 0, 1⟩] (vec3 9 1 1) 3 ⟨false, 1, 1⟩ 0
        (vec3 0 0 0) 16 =
      S64Desc.found ⟨false, 1, 1⟩ 0 (vec3 8 0 0) 4 true ∧
    S64Desc.found (⟨false, 1, 1⟩ : S64Node) 0 (vec3 8 0 0) 4 true ≠
      S64Desc.found (⟨false, 1, 1⟩ : S64Node) 0 (vec3 0 0 0) 16 true := by
  constructor <;> decide

/-- C2 amended: when the mask bit for the computed child index is unset at
an internal level, the descent exits recording the empty quarter-size
sub-cell selected by that index (cell_min advanced by the child offset,
cell_size quartered) together with the tested node and missing = true - a
sub-cell of the cell whose mask was tested, not that cell itself; the
subsequent march step then advances t to this sub-cell's far boundary. -/
theorem c2_empty_space_records_subcell (pool : List S64Node) (pos : Vec3)
    (fuel : ℕ) (node : S64Node) (node_idx : ℕ) (cell_min : Vec3) (cell_size : ℚ)
    (hleaf : node.is_leaf = false)
    (hbit : node.child_mask.testBit (s64_cellIdx pos cell_min (cell_size * (1 / 4))) =
      false) :
    s64_descend pool pos (fuel + 1) node node_idx cell_min cell_size =
      S64Desc.found node node_idx (s64_subMin pos cell_min (cell_size * (1 / 4)))
        (cell_size * (1 / 4)) true := by
  rw [s64_descend]
  simp only [hleaf, Bool.false_eq_true, if_false, hbit, not_false_iff, if_true]

/-- Witness for the amended C2 at the counterexample input. -/
theorem c2_empty_space_records_subcell_witness :
    ((⟨false, 1, 1⟩ : S64Node).is_leaf = false ∧
     (⟨false, 1, 1⟩ : S64Node).child_mask.testBit
       (s64_cellIdx (vec3 9 1 1) (vec3 0 0 0) ((16 : ℚ) * (1 / 4))) = false) ∧
    s64_descend [⟨false, 1, 1⟩, ⟨true, 0, 1⟩] (vec3 9 1 1) (2 + 1) ⟨false, 1, 1⟩ 0
        (vec3 0 0 0) 16 =
      S64Desc.found ⟨false, 1, 1⟩ 0
        (s64_subMin (vec3 9 1 1) (vec3 0 0 0) ((16 : ℚ) * (1 / 4)))
        ((16 : ℚ) * (1 / 4)) true :=
  ⟨⟨by decide, by decide⟩,
   c2_empty_space_records_subcell [⟨false, 1, 1⟩, ⟨true, 0, 1⟩] (vec3 9 1 1) 2
     ⟨false, 1, 1⟩ 0 (vec3 0 0 0) 16 (by decide) (by decide)⟩

/-- C7: every computed node index and leaf-payload index is guarded before
the array read. At an internal level, a computed child index that is not
below the pool size makes the descent return oob without reading the pool,
and the march turns an oob descent into a no-hit result; at a leaf, a
popcount-indexed payload offset that is not below the leaf-array size makes
the march return no-hit without reading the leaf array. -/
theorem c7_bounds_checked (pool : List S64Node) (pos : Vec3) (fuel : ℕ)
    (node : S64Node) (node_idx : ℕ) (cell_min : Vec3) (cell_size : ℚ)
    (t : S64Tree) (ray : S64Ray) (t1 tcur : ℚ) (mfuel : ℕ) :
    (node.is_leaf = false →
      node.child_mask.testBit (s64_cellIdx pos cell_min (cell_size * (1 / 4))) = true →
      pool.length ≤ node.child_ptr +
        s64_popcnt64_before node.child_mask
          (s64_cellIdx pos cell_min (cell_size * (1 / 4))) →
      s64_descend pool pos (fuel + 1) node node_idx cell_min cell_size =
        S64Desc.oob) ∧
    (s64_descend t.node_pool pos (t.node_pool.length + 1)
        (t.node_pool.getD 0 ⟨false, 0, 0⟩) 0 t.bmin (t.bmax.x - t.bmin.x) =
        S64Desc.oob →
      s64_march t ray t1 (mfuel + 1) tcur pos = some S64March.miss) ∧
    (∀ (nd : S64Node) (ni : ℕ) (cmin : Vec3) (csz : ℚ),
      s64_descend t.node_pool pos (t.node_pool.length + 1)
          (t.node_pool.getD 0 ⟨false, 0, 0⟩) 0 t.bmin (t.bmax.x - t.bmin.x) =
        S64Desc.found nd ni cmin csz false →
      nd.is_leaf = true →
      nd.child_mask.testBit (s64_cellIdx pos cmin (csz * (1 / 4))) = true →
      t.leaf_data.length ≤ nd.child_ptr +
        s64_popcnt64_before nd.child_mask (s64_cellIdx pos cmin (csz * (1 / 4))) →
      s64_march t ray t1 (mfuel + 1) tcur pos = some S64March.miss) := by
  refine ⟨?_, ?_, ?_⟩
  · intro hleaf hbit hlen
    rw [s64_descend]
    simp only [hleaf, Bool.false_eq_true, if_false, hbit, not_true, if_neg,
      if_pos hlen]
  · intro hdesc
    rw [s64_march, hdesc]
  · intro nd ni cmin csz hdesc hleaf hbit hlen
    rw [s64_march, hdesc]
    simp only [hleaf, hbit, hlen, true_and, and_true, if_pos, if_true, eq_self_iff_true]

/-- Witness for C7: a malformed single-node pool whose only internal node
points at slot 5 of a one-element pool triggers the node-index guard, and a
leaf with an occupied bit but an empty payload array triggers the
leaf-offset guard; both produce no-hit. -/
theorem c7_bounds_checked_witness :
    ((⟨false, 5, 1⟩ : S64Node).is_leaf = false ∧
     (⟨false, 5, 1⟩ : S64Node).child_mask.testBit
       (s64_cellIdx (vec3 1 1 1) (vec3 0 0 0) ((16 : ℚ) * (1 / 4))) = true ∧
     List.length [(⟨false, 5, 1⟩ : S64Node)] ≤ 5 +
       s64_popcnt64_before 1 (s64_cellIdx (vec3 1 1 1) (vec3 0 0 0) ((16 : ℚ) * (1 / 4)))) ∧
    s64_descend [⟨false, 5, 1⟩] (vec3 1 1 1) (0 + 1) ⟨false, 5, 1⟩ 0 (vec3 0 0 0) 16 =
      S64Desc.oob :=
  ⟨⟨by decide, by decide, by decide⟩,
   (c7_bounds_checked [⟨false, 5, 1⟩] (vec3 1 1 1) 0 ⟨false, 5, 1⟩ 0 (vec3 0 0 0) 16
     ⟨[], [], vec3 0 0 0, vec3 0 0 0, 0⟩ ⟨vec3 0 0 0, vec3 0 0 0, vec3 0 0 0⟩ 0 0 0).1
     (by decide) (by decide) (by decide)⟩

/-- The record-independent part of s64tree_intersect: which outcome the
traversal produces depends only on the tree and the ray. -/
def s64_core (t : S64Tree) (ray : S64Ray) : Option S64March :=
  if t.node_pool.isEmpty then some .miss
  else if ¬ (s64_aabb_hit ray.origin ray.inv_dir t.bmin t.bmax).1 then some .miss
  else if (s64_aabb_hit ray.origin ray.inv_dir t.bmin t.bmax).2.2 < 0 then some .miss
  else
    s64_march t ray (s64_aabb_hit ray.origin ray.inv_dir t.bmin t.bmax).2.2
      512 (fmaxf (s64_aabb_hit ray.origin ray.inv_dir t.bmin t.bmax).2.1 0)
      (add ray.origin
        (mul ray.dir (fmaxf (s64_aabb_hit ray.origin ray.inv_dir t.bmin t.bmax).2.1 0)))

/-- s64tree_intersect factors through the record-independent core: the
input record only contributes the preserved point and normal fields of the
reset output on a miss. -/
theorem s64tree_intersect_eq_core (t : S64Tree) (ray : S64Ray) (out : S64Hit) :
    s64tree_intersect t ray out =
      match s64_core t ray with
      | none => none
      | some .miss =>
        some (false,
          { out with hit := false, t := 1000000000000000000000000000000, voxel_id := 0 })
      | some (.hitAt tc p v) =>
        some (true, ⟨true, tc, p, vec3 0 1 0, v⟩) := by
  unfold s64tree_intersect s64_core
  split_ifs with h1 h2 h3 <;> rfl

/-- C9: the boolean result and the hit, t and voxel_id fields of the output
are independent of the record's prior contents - the function resets
hit = false, t = 1e30, voxel_id = 0 on entry - and on a miss those fields
hold exactly the reset values while point and normal are left untouched. -/
theorem c9_output_independent (t : S64Tree) (ray : S64Ray) (rec1 rec2 : S64Hit) :
    (s64tree_intersect t ray rec1 = none ↔ s64tree_intersect t ray rec2 = none) ∧
    (∀ b1 o1 b2 o2,
      s64tree_intersect t ray rec1 = some (b1, o1) →
      s64tree_intersect t ray rec2 = some (b2, o2) →
      b1 = b2 ∧ o1.hit = o2.hit ∧ o1.t = o2.t ∧ o1.voxel_id = o2.voxel_id ∧
      (b1 = false →
        o1 =
          { rec1 with hit := false, t := 1000000000000000000000000000000, voxel_id := 0 } ∧
        o2 =
          { rec2 with hit := false, t := 1000000000000000000000000000000, voxel_id := 0 })) := by
  rw [s64tree_intersect_eq_core t ray rec1, s64tree_intersect_eq_core t ray rec2]
  cases hc : s64_core t ray with
  | none => simp
  | some m =>
    cases m with
    | miss =>
      refine ⟨by simp, ?_⟩
      intro b1 o1 b2 o2 h1 h2
      simp only [Option.some.injEq, Prod.mk.injEq] at h1 h2
      obtain ⟨hb1, ho1⟩ := h1
      obtain ⟨hb2, ho2⟩ := h2
      subst hb1 hb2 ho1 ho2
      simp
    | hitAt tc p v =>
      refine ⟨by simp, ?_⟩
      intro b1 o1 b2 o2 h1 h2
      simp only [Option.some.injEq, Prod.mk.injEq] at h1 h2
      obtain ⟨hb1, ho1⟩ := h1
      obtain ⟨hb2, ho2⟩ := h2
      subst hb1 hb2 ho1 ho2
      simp

/-- Witness for C9: evaluating a single-leaf tree against a fixed ray shows
two different prior records yield the same hit, t and voxel id. -/
theorem c9_output_independent_witness :
    s64tree_intersect ⟨[⟨true, 0, 1048576⟩], [7], vec3 0 0 0, vec3 4 4 4, 4⟩
      ⟨vec3 (-1) (3 / 2) (3 / 2), vec3 1 0 0,
        vec3 1 1000000000000000000000000000000 1000000000000000000000000000000⟩
      ⟨true, 55, vec3 9 9 9, vec3 8 8 8, 3⟩ =
      some (true, ⟨true, 1, vec3 0 (3 / 2) (3 / 2), vec3 0 1 0, 7⟩) ∧
    (∀ b1 o1 b2 o2,
      s64tree_intersect ⟨[⟨true, 0, 1048576⟩], [7], vec3 0 0 0, vec3 4 4 4, 4⟩
        ⟨vec3 (-1) (3 / 2) (3 / 2), vec3 1 0 0,
          vec3 1 1000000000000000000000000000000 1000000000000000000000000000000⟩
        ⟨true, 55, vec3 9 9 9, vec3 8 8 8, 3⟩ = some (b1, o1) →
      s64tree_intersect ⟨[⟨true, 0, 1048576⟩], [7], vec3 0 0 0, vec3 4 4 4, 4⟩
        ⟨vec3 (-1) (3 / 2) (3 / 2), vec3 1 0 0,
          vec3 1 1000000000000000000000000000000 1000000000000000000000000000000⟩
        ⟨false, 0, vec3 0 0 0, vec3 0 0 0, 0⟩ = some (b2, o2) →
      b1 = b2 ∧ o1.hit = o2.hit ∧ o1.t = o2.t ∧ o1.voxel_id = o2.voxel_id) :=
  by
  refine ⟨by decide, ?_⟩
  intro b1 o1 b2 o2 h1 h2
  have h := (c9_output_independent
      ⟨[⟨true, 0, 1048576⟩], [7], vec3 0 0 0, vec3 4 4 4, 4⟩
      ⟨vec3 (-1) (3 / 2) (3 / 2), vec3 1 0 0,
        vec3 1 1000000000000000000000000000000 1000000000000000000000000000000⟩
      ⟨true, 55, vec3 9 9 9, vec3 8 8 8, 3⟩
      ⟨false, 0, vec3 0 0 0, vec3 0 0 0, 0⟩).2 b1 o1 b2 o2 h1 h2
  exact ⟨h.1, h.2.1, h.2.2.1, h.2.2.2.1⟩

/-- A node pool whose internal nodes (with a nonzero mask) point strictly
past their own index. Every pool produced by s64tree_build has this shape,
since children are always allocated at the end of the arena; it is exactly
what makes the descent loop of s64tree_intersect terminate. -/
def S64MonoPool (pool : List S64Node) : Prop :=
  ∀ i, i < pool.length → (pool.getD i ⟨false, 0, 0⟩).is_leaf = false →
    (pool.getD i ⟨false, 0, 0⟩).child_mask ≠ 0 →
    i < (pool.getD i ⟨false, 0, 0⟩).child_ptr

instance (pool : List S64Node) : Decidable (S64MonoPool pool) := by
  unfold S64MonoPool; infer_instance

/-- A leaf node ends the descent immediately with missing = false. -/
theorem s64_descend_leaf (pool : List S64Node) (pos : Vec3) (fuel : ℕ)
    (node : S64Node) (node_idx : ℕ) (cell_min : Vec3) (cell_size : ℚ)
    (hl : node.is_leaf = true) :
    s64_descend pool pos fuel node node_idx cell_min cell_size =
      S64Desc.found node node_idx cell_min cell_size false := by
  rw [s64_descend.eq_def]
  simp only [hl, if_true]

/-- One in-bounds descent step into an occupied child: the loop continues at
the popcount-indexed child with the quarter-size sub-cell. -/
theorem s64_descend_into (pool : List S64Node) (pos : Vec3) (fuel : ℕ)
    (node : S64Node) (node_idx : ℕ) (cell_min : Vec3) (cell_size : ℚ)
    (hl : node.is_leaf = false)
    (hbit : node.child_mask.testBit (s64_cellIdx pos cell_min (cell_size * (1 / 4))) = true)
    (hin : ¬ pool.length ≤ node.child_ptr +
      s64_popcnt64_before node.child_mask (s64_cellIdx pos cell_min (cell_size * (1 / 4)))) :
    s64_descend pool pos (fuel + 1) node node_idx cell_min cell_size =
      s64_descend pool pos fuel
        (pool.getD (node.child_ptr +
          s64_popcnt64_before node.child_mask
            (s64_cellIdx pos cell_min (cell_size * (1 / 4)))) ⟨false, 0, 0⟩)
        (node.child_ptr +
          s64_popcnt64_before node.child_mask
            (s64_cellIdx pos cell_min (cell_size * (1 / 4))))
        (s64_subMin pos cell_min (cell_size * (1 / 4))) (cell_size * (1 / 4)) := by
  rw [s64_descend]
  simp only [hl, Bool.false_eq_true, if_false, hbit, not_true, if_neg, hin]

/-- Over a monotone pool the descent loop cannot exhaust a fuel budget
larger than the number of nodes above the start index: each iteration
either exits or moves to a strictly larger node index. -/
theorem s64_descend_ne_stuck (pool : List S64Node) (pos : Vec3)
    (hmono : S64MonoPool pool) :
    ∀ (fuel node_idx : ℕ) (cell_min : Vec3) (cell_size : ℚ),
      node_idx < pool.length →
      pool.length - node_idx < fuel →
      s64_descend pool pos fuel (pool.getD node_idx ⟨false, 0, 0⟩) node_idx
        cell_min cell_size ≠ S64Desc.stuck := by
  intro fuel
  induction fuel with
  | zero => intro node_idx cell_min cell_size hidx hfuel; omega
  | succ fuel ih =>
    intro node_idx cell_min cell_size hidx hfuel
    by_cases hl : (pool.getD node_idx ⟨false, 0, 0⟩).is_leaf
    · rw [s64_descend_leaf _ _ _ _ _ _ _ hl]
      exact fun h => S64Desc.noConfusion h
    · have hlf : (pool.getD node_idx ⟨false, 0, 0⟩).is_leaf = false :=
        Bool.not_eq_true _ ▸ eq_false_of_ne_true hl
      by_cases hb : (pool.getD node_idx ⟨false, 0, 0⟩).child_mask.testBit
          (s64_cellIdx pos cell_min (cell_size * (1 / 4)))
      · by_cases hoob : pool.length ≤ (pool.getD node_idx ⟨false, 0, 0⟩).child_ptr +
            s64_popcnt64_before (pool.getD node_idx ⟨false, 0, 0⟩).child_mask
              (s64_cellIdx pos cell_min (cell_size * (1 / 4)))
        · rw [(c7_bounds_checked pool pos fuel (pool.getD node_idx ⟨false, 0, 0⟩)
            node_idx cell_min cell_size ⟨[], [], vec3 0 0 0, vec3 0 0 0, 0⟩
            ⟨vec3 0 0 0, vec3 0 0 0, vec3 0 0 0⟩ 0 0 0).1 hlf hb hoob]
          exact fun h => S64Desc.noConfusion h
        · rw [s64_descend_into pool pos fuel _ node_idx cell_min cell_size hlf hb hoob]
          have hmask : (pool.getD node_idx ⟨false, 0, 0⟩).child_mask ≠ 0 := by
            intro h0
            rw [h0] at hb
            simp [Nat.zero_testBit] at hb
          have hlt := hmono node_idx hidx hlf hmask
          exact ih _ _ _ (by omega) (by omega)
      · rw [c2_empty_space_records_subcell pool pos fuel _ node_idx cell_min cell_size
          hlf (eq_false_of_ne_true hb)]
        exact fun h => S64Desc.noConfusion h

/-- Over a nonempty monotone pool the marching loop always produces a
result: the descent fuel of pool.length + 1 is never exhausted. -/
theorem s64_march_ne_none (t : S64Tree) (ray : S64Ray)
    (hmono : S64MonoPool t.node_pool) (hne : 0 < t.node_pool.length) :
    ∀ (fuel : ℕ) (t1 tcur : ℚ) (pos : Vec3),
      s64_march t ray t1 fuel tcur pos ≠ none := by
  intro fuel
  induction fuel with
  | zero => intro t1 tcur pos; rw [s64_march]; exact fun h => Option.noConfusion h
  | succ fuel ih =>
    intro t1 tcur pos
    rw [s64_march]
    have hd := s64_descend_ne_stuck t.node_pool pos hmono
      (t.node_pool.length + 1) 0 t.bmin (t.bmax.x - t.bmin.x) hne (by omega)
    cases hdesc : s64_descend t.node_pool pos (t.node_pool.length + 1)
        (t.node_pool.getD 0 ⟨false, 0, 0⟩) 0 t.bmin (t.bmax.x - t.bmin.x) with
    | stuck => exact absurd hdesc hd
    | oob => exact fun h => Option.noConfusion h
    | found node ni cmin csz missing =>
      dsimp only []
      by_cases hlm : node.is_leaf = true ∧ missing = false
      · rw [if_pos hlm]
        by_cases hb : node.child_mask.testBit (s64_cellIdx pos cmin (csz * (1 / 4)))
        · rw [if_pos hb]
          by_cases hlen : t.leaf_data.length ≤ node.child_ptr +
              s64_popcnt64_before node.child_mask (s64_cellIdx pos cmin (csz * (1 / 4)))
          · rw [if_pos hlen]
            exact fun h => Option.noConfusion h
          · rw [if_neg hlen]
            exact fun h => Option.noConfusion h
        · rw [if_neg (by simpa using hb)]
          cases hs : s64_step ray t1 tcur pos cmin csz with
          | none => exact fun h => Option.noConfusion h
          | some tp =>
            cases tp with
            | mk tn pn => exact ih t1 tn pn
      · rw [if_neg hlm]
        cases hs : s64_step ray t1 tcur pos cmin csz with
        | none => exact fun h => Option.noConfusion h
        | some tp =>
          cases tp with
          | mk tn pn => exact ih t1 tn pn

/-- The descent loop of s64tree_intersect never exits, whatever iteration
budget it is given: the shallow model of a C while loop that runs forever. -/
def s64_descend_diverges (pool : List S64Node) (pos : Vec3) (node : S64Node)
    (node_idx : ℕ) (cell_min : Vec3) : Prop :=
  ∀ (fuel : ℕ) (cell_size : ℚ),
    s64_descend pool pos fuel node node_idx cell_min cell_size = S64Desc.stuck

/-- C6 counterexample: a pool whose single internal node has a full mask and
child_ptr 0 sends the descent back to itself forever (for a ray position at
the cell corner every level selects child (0,0,0), whose slot is again node
0), so s64tree_intersect does not terminate on this tree - the claim that it
always terminates is false for malformed pools. -/
theorem c6_counterexample :
    s64_descend_diverges [⟨false, 0, 18446744073709551615⟩] (vec3 0 0 0)
      ⟨false, 0, 18446744073709551615⟩ 0 (vec3 0 0 0) := by
  intro fuel
  induction fuel with
  | zero =>
    intro cs
    rw [s64_descend.eq_def]
    rfl
  | succ fuel ih =>
    intro cs
    have hz : ∀ a : ℚ, ((vec3 0 0 0).x - (vec3 0 0 0).x) / a = 0 := by
      intro a; simp [vec3]
    have hcx : s64_cx (vec3 0 0 0) (vec3 0 0 0) (cs * (1 / 4)) = 0 := by
      unfold s64_cx
      rw [show ((vec3 0 0 0).x - (vec3 0 0 0).x) / (cs * (1 / 4)) = 0 from hz _]
      decide
    have hcy : s64_cy (vec3 0 0 0) (vec3 0 0 0) (cs * (1 / 4)) = 0 := by
      unfold s64_cy
      rw [show ((vec3 0 0 0).y - (vec3 0 0 0).y) / (cs * (1 / 4)) = 0 by simp [vec3]]
      decide
    have hcz : s64_cz (vec3 0 0 0) (vec3 0 0 0) (cs * (1 / 4)) = 0 := by
      unfold s64_cz
      rw [show ((vec3 0 0 0).z - (vec3 0 0 0).z) / (cs * (1 / 4)) = 0 by simp [vec3]]
      decide
    have hidx : s64_cellIdx (vec3 0 0 0) (vec3 0 0 0) (cs * (1 / 4)) = 0 := by
      unfold s64_cellIdx
      rw [hcx, hcy, hcz]
      decide
    have hsub : s64_subMin (vec3 0 0 0) (vec3 0 0 0) (cs * (1 / 4)) = vec3 0 0 0 := by
      unfold s64_subMin
      rw [hcx, hcy, hcz]
      simp [add, vec3]
    rw [s64_descend_into _ _ _ _ _ _ _ (by decide) (by rw [hidx]; decide)
      (by rw [hidx]; decide)]
    rw [hidx, hsub]
    exact ih (cs * (1 / 4))

/-- C6 amended: for every tree whose pool is monotone (internal nodes with a
nonzero mask point past themselves - the shape of every s64tree_build
output), s64tree_intersect terminates with a result; the marching loop runs
at most 512 iterations and an exhausted budget reports no-hit exactly like
exiting the bounds; every no-hit result carries exactly the reset record. -/
theorem c6_termination (t : S64Tree) (ray : S64Ray) (out : S64Hit)
    (hmono : S64MonoPool t.node_pool) :
    (∃ b o, s64tree_intersect t ray out = some (b, o)) ∧
    (∀ (t1 tcur : ℚ) (pos : Vec3),
      s64_march t ray t1 0 tcur pos = some S64March.miss) ∧
    (∀ b o, s64tree_intersect t ray out = some (b, o) →
      (b = true → o.hit = true) ∧
      (b = false →
        o =
          { out with hit := false, t := 1000000000000000000000000000000, voxel_id := 0 })) := by
  have hcore : s64_core t ray ≠ none := by
    unfold s64_core
    split_ifs with h1 h2 h3
    any_goals exact fun h => Option.noConfusion h
    apply s64_march_ne_none t ray hmono
    rw [List.isEmpty_iff] at h1
    exact List.length_pos.mpr h1
  refine ⟨?_, ?_, ?_⟩
  · rw [s64tree_intersect_eq_core]
    cases hc : s64_core t ray with
    | none => exact absurd hc hcore
    | some m =>
      cases m with
      | miss => exact ⟨_, _, rfl⟩
      | hitAt tc p v => exact ⟨_, _, rfl⟩
  · intro t1 tcur pos
    rw [s64_march]
  · intro b o hbo
    rw [s64tree_intersect_eq_core] at hbo
    cases hc : s64_core t ray with
    | none => exact absurd hc hcore
    | some m =>
      rw [hc] at hbo
      cases m with
      | miss =>
        simp only [Option.some.injEq, Prod.mk.injEq] at hbo
        obtain ⟨hb, ho⟩ := hbo
        subst hb ho
        exact ⟨fun h => Bool.noConfusion h, fun _ => rfl⟩
      | hitAt tc p v =>
        simp only [Option.some.injEq, Prod.mk.injEq] at hbo
        obtain ⟨hb, ho⟩ := hbo
        subst hb ho
        exact ⟨fun _ => rfl, fun h => Bool.noConfusion h⟩

/-- Witness for C6 at a concrete monotone two-node tree and a ray that hits
its voxel (0,0,0). -/
theorem c6_termination_witness :
    S64MonoPool [⟨false, 1, 1⟩, ⟨true, 0, 1⟩] ∧
    (∃ b o,
      s64tree_intersect ⟨[⟨false, 1, 1⟩, ⟨true, 0, 1⟩], [9], vec3 0 0 0, vec3 16 16 16, 16⟩
        ⟨vec3 (-1) (1 / 2) (1 / 2), vec3 1 0 0,
          vec3 1 1000000000000000000000000000000 1000000000000000000000000000000⟩
        ⟨false, 0, vec3 0 0 0, vec3 0 0 0, 0⟩ = some (b, o)) :=
  ⟨by decide,
   (c6_termination ⟨[⟨false, 1, 1⟩, ⟨true, 0, 1⟩], [9], vec3 0 0 0, vec3 16 16 16, 16⟩
     ⟨vec3 (-1) (1 / 2) (1 / 2), vec3 1 0 0,
       vec3 1 1000000000000000000000000000000 1000000000000000000000000000000⟩
     ⟨false, 0, vec3 0 0 0, vec3 0 0 0, 0⟩ (by decide)).1⟩

/-- Length of a guarded filterMap: one output element per satisfied guard. -/
theorem filterMap_guard_length {α β : Type _} (l : List α) (p : α → Bool)
    (g : α → β) :
    (l.filterMap fun a => if p a then some (g a) else none).length =
      (l.filter p).length := by
  induction l with
  | nil => rfl
  | cons a l ih =>
    by_cases hp : p a <;> simp [List.filterMap_cons, List.filter_cons, hp, ih]

/-- The packed leaf payload has exactly popcount(mask) bytes. -/
theorem s64_leaf_pack_length (voxels : ℕ → ℕ) (N x0 y0 z0 mask : ℕ) :
    (s64_leaf_pack voxels N x0 y0 z0 mask).length = s64_popcnt64 mask := by
  unfold s64_leaf_pack s64_popcnt64
  exact filterMap_guard_length _ _ _

/-- Packing the zero mask contributes nothing. -/
theorem s64_leaf_pack_zero (voxels : ℕ → ℕ) (N x0 y0 z0 : ℕ) :
    s64_leaf_pack voxels N x0 y0 z0 0 = [] := by
  unfold s64_leaf_pack
  simp [Nat.zero_testBit]

/-- A segment lying inside a list is unchanged when the list is extended. -/
theorem segment_of_extend {α : Type _} (l1 l2 : List α) (p k : ℕ)
    (hpre : l1 <+: l2) (hk : p + k ≤ l1.length) :
    (l2.drop p).take k = (l1.drop p).take k := by
  obtain ⟨tl, rfl⟩ := hpre
  rw [List.drop_append_of_le_length (by omega)]
  rw [List.take_append_of_le_length]
  simp
  omega

/-- Consistency of one node with respect to an arena of the given length and
a leaf array: a leaf owns popcount(child_mask) payload bytes starting at
child_ptr, holding the packed bytes of some region in increasing mask-bit
order; an internal node with a nonzero mask owns popcount(child_mask)
contiguous child slots starting at child_ptr. -/
def S64NodeOK (voxels : ℕ → ℕ) (N poolLen : ℕ) (leaf : List ℕ) (n : S64Node) :
    Prop :=
  if n.is_leaf then
    n.child_ptr + s64_popcnt64 n.child_mask ≤ leaf.length ∧
    ∃ x0 y0 z0, (leaf.drop n.child_ptr).take (s64_popcnt64 n.child_mask) =
      s64_leaf_pack voxels N x0 y0 z0 n.child_mask
  else
    n.child_mask ≠ 0 → n.child_ptr + s64_popcnt64 n.child_mask ≤ poolLen

/-- Node consistency is preserved by growing the arena and extending the
leaf array. -/
theorem S64NodeOK.mono (voxels : ℕ → ℕ) (N : ℕ) {L1 L2 : ℕ}
    {leaf1 leaf2 : List ℕ} (n : S64Node) (hL : L1 ≤ L2) (hpre : leaf1 <+: leaf2)
    (h : S64NodeOK voxels N L1 leaf1 n) : S64NodeOK voxels N L2 leaf2 n := by
  unfold S64NodeOK at h ⊢
  by_cases hl : n.is_leaf
  · rw [if_pos hl] at h ⊢
    obtain ⟨hlen, x0, y0, z0, hseg⟩ := h
    have hlen2 := hpre.length_le
    refine ⟨by omega, x0, y0, z0, ?_⟩
    rw [segment_of_extend leaf1 leaf2 _ _ hpre hlen]
    exact hseg
  · rw [if_neg hl] at h ⊢
    intro hm
    exact le_trans (h hm) hL

/-- Invariant carried through the S64 builder: every node in the arena is
consistent, and internal nodes always point past their own index. -/
def S64Inv (voxels : ℕ → ℕ) (N : ℕ) (st : S64Build) : Prop :=
  (∀ n ∈ st.node_pool, S64NodeOK voxels N st.node_pool.length st.leaf_data n) ∧
  S64MonoPool st.node_pool

/-- getD at an index other than the one being set is unchanged. -/
theorem getD_set_ne {α : Type _} (l : List α) (i j : ℕ) (v d : α) (h : i ≠ j) :
    (l.set i v).getD j d = l.getD j d := by
  rw [List.getD_eq_getElem?_getD, List.getElem?_set_ne h,
    ← List.getD_eq_getElem?_getD]

/-- getD at an in-bounds index being set returns the new value. -/
theorem getD_set_self {α : Type _} (l : List α) (i : ℕ) (v d : α)
    (h : i < l.length) : (l.set i v).getD i d = v := by
  rw [List.getD_eq_getElem?_getD, List.getElem?_set]
  simp [h]

/-- getD inside a replicate block returns the replicated value. -/
theorem getD_replicate_lt {α : Type _} (n k : ℕ) (x d : α) (h : k < n) :
    (List.replicate n x).getD k d = x := by
  rw [List.getD_eq_getElem?_getD, List.getElem?_replicate]
  simp [h]

/-- Master lemma for the S64 builder: building in place at an in-range node
index of a consistent state grows the arena and leaf array monotonically,
does not touch any other pre-existing node, and preserves consistency. -/
theorem s64_build_master (voxels : ℕ → ℕ) (N : ℕ) :
    ∀ (size : ℕ) (st : S64Build) (node_idx x0 y0 z0 : ℕ),
      node_idx < st.node_pool.length →
      S64Inv voxels N st →
      st.node_pool.length ≤
          (s64_build_inplace voxels N st node_idx x0 y0 z0 size).1.node_pool.length ∧
      st.leaf_data <+:
          (s64_build_inplace voxels N st node_idx x0 y0 z0 size).1.leaf_data ∧
      (∀ j, j < st.node_pool.length → j ≠ node_idx →
        (s64_build_inplace voxels N st node_idx x0 y0 z0 size).1.node_pool.getD j
            ⟨false, 0, 0⟩ =
          st.node_pool.getD j ⟨false, 0, 0⟩) ∧
      S64Inv voxels N (s64_build_inplace voxels N st node_idx x0 y0 z0 size).1 := by
  intro size
  induction size using Nat.strong_induction_on with
  | _ size IH =>
    intro st node_idx x0 y0 z0 hidx hinv
    rw [s64_build_inplace.eq_def]
    by_cases h4 : size = 4
    · rw [if_pos h4]
      simp only [s64_leaf_mask_and_pack]
      refine ⟨by simp, ?_, ?_, ?_, ?_⟩
      · exact List.prefix_append _ _
      · intro j hj hne
        exact getD_set_ne _ _ _ _ _ (fun h => hne h.symm)
      · intro n hn
        rcases List.mem_or_eq_of_mem_set hn with hmem | rfl
        · refine S64NodeOK.mono voxels N n (by simp) (List.prefix_append _ _)
            (hinv.1 n hmem)
        · unfold S64NodeOK
          rw [if_pos rfl]
          constructor
          · simp [s64_leaf_pack_length]
          · refine ⟨x0, y0, z0, ?_⟩
            rw [List.drop_left]
            rw [← s64_leaf_pack_length voxels N x0 y0 z0
              (s64_leaf_mask voxels N x0 y0 z0)]
            exact List.take_length _
      · intro i hi hleaf hmask
        rw [List.length_set] at hi
        by_cases hij : i = node_idx
        · subst hij
          rw [getD_set_self _ _ _ _ hi] at hleaf
          exact absurd hleaf (by simp)
        · rw [getD_set_ne _ _ _ _ _ (fun h => hij h.symm)] at hleaf hmask ⊢
          exact hinv.2 i hi hleaf hmask
    · rw [if_neg h4]
      by_cases hm : s64_child_mask voxels N x0 y0 z0 (size / 4) = 0
      · rw [dif_pos hm]
        refine ⟨by simp, List.prefix_refl _, ?_, ?_, ?_⟩
        · intro j hj hne
          exact getD_set_ne _ _ _ _ _ (fun h => hne h.symm)
        · intro n hn
          rcases List.mem_or_eq_of_mem_set hn with hmem | rfl
          · exact S64NodeOK.mono voxels N n (by simp) (List.prefix_refl _)
              (hinv.1 n hmem)
          · unfold S64NodeOK
            rw [if_neg (by simp)]
            intro hz
            exact absurd rfl hz
        · intro i hi hleaf hmask
          rw [List.length_set] at hi
          by_cases hij : i = node_idx
          · subst hij
            rw [getD_set_self _ _ _ _ hi] at hmask
            exact absurd rfl hmask
          · rw [getD_set_ne _ _ _ _ _ (fun h => hij h.symm)] at hleaf hmask ⊢
            exact hinv.2 i hi hleaf hmask
      · rw [dif_neg hm]
        have hszpos : 0 < size / 4 := s64_child_mask_pos voxels N x0 y0 z0 _ hm
        have hsize : size / 4 < size := by omega
        set M := s64_child_mask voxels N x0 y0 z0 (size / 4) with hMdef
        set pc := s64_popcnt64 M with hpcdef
        set fc := st.node_pool.length with hfcdef
        have hcs_len : ((List.range 64).filter M.testBit).length = pc := rfl
        set stMid : S64Build :=
          { node_pool := (st.node_pool ++ List.replicate pc
              (⟨false, 0, 0⟩ : S64Node)).set node_idx ⟨false, fc, M⟩
            leaf_data := st.leaf_data } with hstMid
        have hMidLen : stMid.node_pool.length = fc + pc := by
          show ((st.node_pool ++ List.replicate pc
            (⟨false, 0, 0⟩ : S64Node)).set node_idx ⟨false, fc, M⟩).length = fc + pc
          rw [List.length_set, List.length_append, List.length_replicate]
        have hMidInv : S64Inv voxels N stMid := by
          constructor
          · intro n hn
            rcases List.mem_or_eq_of_mem_set hn with hmem | rfl
            · rcases List.mem_append.mp hmem with hmem0 | hmemr
              · exact S64NodeOK.mono voxels N n (by rw [hMidLen]; omega)
                  (List.prefix_refl _) (hinv.1 n hmem0)
              · rw [List.eq_of_mem_replicate hmemr]
                unfold S64NodeOK
                rw [if_neg (by simp)]
                intro hz
                exact absurd rfl hz
            · unfold S64NodeOK
              rw [if_neg (by simp)]
              intro _
              rw [hMidLen]
          · intro i hi hleaf hmask
            rw [hMidLen] at hi
            by_cases hij : i = node_idx
            · subst hij
              rw [getD_set_self _ _ _ _ (by simp [List.length_append, List.length_replicate]; omega)] at hleaf hmask ⊢
              exact hidx
            · rw [show stMid.node_pool = (st.node_pool ++ List.replicate pc
                (⟨false, 0, 0⟩ : S64Node)).set node_idx ⟨false, fc, M⟩ from rfl,
                getD_set_ne _ _ _ _ _ (fun h => hij h.symm)] at hleaf hmask ⊢
              by_cases hifc : i < fc
              · rw [List.getD_append _ _ _ _ hifc] at hleaf hmask ⊢
                exact hinv.2 i hifc hleaf hmask
              · rw [List.getD_append_right _ _ _ _ (by omega)] at hmask
                rw [getD_replicate_lt _ _ _ _ (by omega)] at hmask
                exact absurd rfl hmask
        have hchild : ∀ (cs : List ℕ) (slot : ℕ) (st1 : S64Build),
            S64Inv voxels N st1 →
            fc + slot + cs.length ≤ st1.node_pool.length →
            st1.node_pool.length ≤
              (s64_build_children voxels N (size / 4) st1 fc x0 y0 z0 cs
                slot).node_pool.length ∧
            st1.leaf_data <+:
              (s64_build_children voxels N (size / 4) st1 fc x0 y0 z0 cs
                slot).leaf_data ∧
            (∀ j, j < fc + slot →
              (s64_build_children voxels N (size / 4) st1 fc x0 y0 z0 cs
                  slot).node_pool.getD j ⟨false, 0, 0⟩ =
                st1.node_pool.getD j ⟨false, 0, 0⟩) ∧
            S64Inv voxels N
              (s64_build_children voxels N (size / 4) st1 fc x0 y0 z0 cs slot) := by
          intro cs
          induction cs with
          | nil =>
            intro slot st1 hinv1 hbud
            rw [s64_build_children]
            exact ⟨le_refl _, List.prefix_refl _, fun j hj => rfl, hinv1⟩
          | cons ci rest ihc =>
            intro slot st1 hinv1 hbud
            rw [s64_build_children]
            have hbnd : fc + slot < st1.node_pool.length := by
              simp only [List.length_cons] at hbud
              omega
            obtain ⟨hlen2, hpre2, hunch2, hinv2⟩ :=
              IH (size / 4) hsize st1 (fc + slot)
                (x0 + ci % 4 * (size / 4)) (y0 + ci / 16 % 4 * (size / 4))
                (z0 + ci / 4 % 4 * (size / 4)) hbnd hinv1
            obtain ⟨hlen3, hpre3, hunch3, hinv3⟩ :=
              ihc (slot + 1)
                (s64_build_inplace voxels N st1 (fc + slot)
                  (x0 + ci % 4 * (size / 4)) (y0 + ci / 16 % 4 * (size / 4))
                  (z0 + ci / 4 % 4 * (size / 4)) (size / 4)).1 hinv2
                (by simp only [List.length_cons] at hbud; omega)
            refine ⟨le_trans hlen2 hlen3, List.IsPrefix.trans hpre2 hpre3, ?_, hinv3⟩
            intro j hj
            rw [hunch3 j (by omega), hunch2 j (by omega) (by omega)]
        obtain ⟨hlenC, hpreC, hunchC, hinvC⟩ :=
          hchild ((List.range 64).filter M.testBit) 0 stMid hMidInv
            (by rw [hMidLen, hcs_len]; omega)
        refine ⟨?_, ?_, ?_, ?_⟩
        · calc st.node_pool.length ≤ stMid.node_pool.length := by rw [hMidLen]; omega
            _ ≤ _ := hlenC
        · exact hpreC
        · intro j hj hne
          rw [hunchC j (by omega)]
          rw [show stMid.node_pool = (st.node_pool ++ List.replicate pc
            (⟨false, 0, 0⟩ : S64Node)).set node_idx ⟨false, fc, M⟩ from rfl,
            getD_set_ne _ _ _ _ _ (fun h => hne h.symm),
            List.getD_append _ _ _ _ hj]
        · exact hinvC

/-- The invariants hold for every built tree: consistency of every node and
monotone child pointers (also justifying the termination hypothesis of the
traversal). -/
theorem s64tree_build_inv (voxels : ℕ → ℕ) (N : ℕ) (bmin bmax : Vec3) :
    (∀ n ∈ (s64tree_build voxels N bmin bmax).node_pool,
      S64NodeOK voxels N (s64tree_build voxels N bmin bmax).node_pool.length
        (s64tree_build voxels N bmin bmax).leaf_data n) ∧
    S64MonoPool (s64tree_build voxels N bmin bmax).node_pool := by
  have h0 : S64Inv voxels N (s64_alloc_node ⟨[], []⟩).1 := by
    constructor
    · intro n hn
      simp only [s64_alloc_node, List.nil_append, List.mem_singleton] at hn
      subst hn
      unfold S64NodeOK
      rw [if_neg (by simp)]
      intro hz
      exact absurd rfl hz
    · intro i hi hleaf hmask
      simp only [s64_alloc_node, List.nil_append, List.length_singleton] at hi
      interval_cases i
      simp [s64_alloc_node] at hmask
  obtain ⟨hlen, hpre, hunch, hinv⟩ :=
    s64_build_master voxels N N (s64_alloc_node ⟨[], []⟩).1 0 0 0 0
      (by simp [s64_alloc_node]) h0
  have hlen1 : 1 ≤ (s64_build_inplace voxels N (s64_alloc_node ⟨[], []⟩).1
      0 0 0 0 N).1.node_pool.length := by
    have : (s64_alloc_node (⟨[], []⟩ : S64Build)).1.node_pool.length = 1 := by
      simp [s64_alloc_node]
    omega
  unfold s64tree_build
  by_cases hb : (s64_build_inplace voxels N (s64_alloc_node ⟨[], []⟩).1 0 0 0 0 N).2
  · simp only [hb, if_true]
    exact hinv
  · simp only [hb, Bool.false_eq_true, if_false]
    constructor
    · intro n hn
      rcases List.mem_or_eq_of_mem_set hn with hmem | rfl
      · refine S64NodeOK.mono voxels N n (by simp) (List.prefix_refl _)
          (hinv.1 n hmem)
      · unfold S64NodeOK
        rw [if_pos rfl]
        refine ⟨by simp [show s64_popcnt64 0 = 0 from rfl], 0, 0, 0, ?_⟩
        rw [show s64_popcnt64 0 = 0 from rfl, s64_leaf_pack_zero]
        simp
    · intro i hi hleaf hmask
      rw [List.length_set] at hi
      by_cases hi0 : i = 0
      · subst hi0
        rw [getD_set_self _ _ _ _ hi] at hleaf
        exact absurd hleaf (by simp)
      · rw [getD_set_ne _ _ _ _ _ (fun h => hi0 h.symm)] at hleaf hmask ⊢
        exact hinv.2 i hi hleaf hmask

/-- C4: in every tree produced by s64tree_build, an internal node with a
nonzero mask owns popcount(child_mask) contiguous node slots starting at
child_ptr inside the arena, and a leaf owns popcount(child_mask) payload
bytes starting at child_ptr in the leaf array, equal to the bytes of a
region packed in increasing mask-bit order. -/
theorem c4_mask_popcount_consistency (voxels : ℕ → ℕ) (N : ℕ)
    (bmin bmax : Vec3) :
    ∀ n ∈ (s64tree_build voxels N bmin bmax).node_pool,
      (n.is_leaf = false → n.child_mask ≠ 0 →
        n.child_ptr + s64_popcnt64 n.child_mask ≤
          (s64tree_build voxels N bmin bmax).node_pool.length) ∧
      (n.is_leaf = true →
        n.child_ptr + s64_popcnt64 n.child_mask ≤
          (s64tree_build voxels N bmin bmax).leaf_data.length ∧
        ∃ x0 y0 z0,
          (((s64tree_build voxels N bmin bmax).leaf_data.drop n.child_ptr).take
              (s64_popcnt64 n.child_mask)) =
            s64_leaf_pack voxels N x0 y0 z0 n.child_mask) := by
  intro n hn
  have h := (s64tree_build_inv voxels N bmin bmax).1 n hn
  unfold S64NodeOK at h
  constructor
  · intro hleaf hmask
    rw [if_neg (by simp [hleaf])] at h
    exact h hmask
  · intro hleaf
    rw [if_pos hleaf] at h
    exact h

/-- Witness for C4: the 4-cube grid with a single voxel of value 7 at
(1,1,1) builds a one-leaf tree with mask bit 21 and one payload byte. -/
theorem c4_mask_popcount_consistency_witness :
    (⟨true, 0, 2097152⟩ : S64Node) ∈
      (s64tree_build (fun i => if i = 21 then 7 else 0) 4 (vec3 0 0 0)
        (vec3 4 4 4)).node_pool ∧
    ((⟨true, 0, 2097152⟩ : S64Node).is_leaf = true →
      (⟨true, 0, 2097152⟩ : S64Node).child_ptr + s64_popcnt64 2097152 ≤
        (s64tree_build (fun i => if i = 21 then 7 else 0) 4 (vec3 0 0 0)
          (vec3 4 4 4)).leaf_data.length ∧
      ∃ x0 y0 z0,
        (((s64tree_build (fun i => if i = 21 then 7 else 0) 4 (vec3 0 0 0)
            (vec3 4 4 4)).leaf_data.drop
            (⟨true, 0, 2097152⟩ : S64Node).child_ptr).take
          (s64_popcnt64 2097152)) =
          s64_leaf_pack (fun i => if i = 21 then 7 else 0) 4 x0 y0 z0 2097152) := by
  have hmem : (⟨true, 0, 2097152⟩ : S64Node) ∈
      (s64tree_build (fun i => if i = 21 then 7 else 0) 4 (vec3 0 0 0)
        (vec3 4 4 4)).node_pool := by
    unfold s64tree_build s64_alloc_node
    rw [s64_build_inplace.eq_def]
    decide
  exact ⟨hmem,
    (c4_mask_popcount_consistency (fun i => if i = 21 then 7 else 0) 4
      (vec3 0 0 0) (vec3 4 4 4) _ hmem).2⟩

/-- Box a contains box b: componentwise min below and max above. -/
def AABB.contains (a b : AABB) : Prop :=
  a.min.x ≤ b.min.x ∧ a.min.y ≤ b.min.y ∧ a.min.z ≤ b.min.z ∧
  b.max.x ≤ a.max.x ∧ b.max.y ≤ a.max.y ∧ b.max.z ≤ a.max.z

instance (a b : AABB) : Decidable (AABB.contains a b) := by
  unfold AABB.contains; infer_instance

/-- fminf is the lattice minimum. -/
theorem fminf_eq_min (a b : ℚ) : fminf a b = min a b := by
  unfold fminf
  rw [min_def]
  by_cases h : a < b
  · rw [if_pos h, if_pos (le_of_lt h)]
  · rw [if_neg h]
    by_cases he : a ≤ b
    · rw [if_pos he, le_antisymm he (not_lt.mp h)]
    · rw [if_neg he]

/-- fmaxf is the lattice maximum. -/
theorem fmaxf_eq_max (a b : ℚ) : fmaxf a b = max a b := by
  unfold fmaxf
  rw [max_def]
  by_cases h : a < b
  · rw [if_pos h, if_pos (le_of_lt h)]
  · rw [if_neg h]
    by_cases he : a ≤ b
    · rw [if_pos he, le_antisymm he (not_lt.mp h)]
    · rw [if_neg he]

/-- Containment is reflexive. -/
theorem AABB.contains_refl (a : AABB) : AABB.contains a a := by
  unfold AABB.contains
  refine ⟨le_refl _, le_refl _, le_refl _, le_refl _, le_refl _, le_refl _⟩

/-- Containment is transitive. -/
theorem AABB.contains_trans {a b c : AABB} (hab : AABB.contains a b)
    (hbc : AABB.contains b c) : AABB.contains a c := by
  unfold AABB.contains at *
  exact ⟨le_trans hab.1 hbc.1, le_trans hab.2.1 hbc.2.1,
    le_trans hab.2.2.1 hbc.2.2.1, le_trans hbc.2.2.2.1 hab.2.2.2.1,
    le_trans hbc.2.2.2.2.1 hab.2.2.2.2.1, le_trans hbc.2.2.2.2.2 hab.2.2.2.2.2⟩

/-- A merge contains its left argument. -/
theorem box_merge_contains_left (a b : AABB) : AABB.contains (box_merge a b) a := by
  unfold AABB.contains box_merge
  simp only [fminf_eq_min, fmaxf_eq_max]
  exact ⟨min_le_left _ _, min_le_left _ _, min_le_left _ _,
    le_max_left _ _, le_max_left _ _, le_max_left _ _⟩

/-- A merge contains its right argument. -/
theorem box_merge_contains_right (a b : AABB) : AABB.contains (box_merge a b) b := by
  unfold AABB.contains box_merge
  simp only [fminf_eq_min, fmaxf_eq_max]
  exact ⟨min_le_right _ _, min_le_right _ _, min_le_right _ _,
    le_max_right _ _, le_max_right _ _, le_max_right _ _⟩

/-- A box containing both arguments contains their merge. -/
theorem box_merge_le {c a b : AABB} (ha : AABB.contains c a)
    (hb : AABB.contains c b) : AABB.contains c (box_merge a b) := by
  unfold AABB.contains at *
  unfold box_merge
  simp only [fminf_eq_min, fmaxf_eq_max]
  refine ⟨le_min ha.1 hb.1, le_min ha.2.1 hb.2.1, le_min ha.2.2.1 hb.2.2.1,
    max_le ha.2.2.2.1 hb.2.2.2.1, max_le ha.2.2.2.2.1 hb.2.2.2.2.1,
    max_le ha.2.2.2.2.2 hb.2.2.2.2.2⟩

/-- The bounds fold of build contains its seed and the box of every item
folded over. -/
theorem foldBounds_contains (l : List Item) :
    ∀ b : AABB,
      AABB.contains (l.foldl (fun acc j => box_merge acc (box_tri j.tri)) b) b ∧
      ∀ x ∈ l,
        AABB.contains (l.foldl (fun acc j => box_merge acc (box_tri j.tri)) b)
          (box_tri x.tri) := by
  induction l with
  | nil => intro b; exact ⟨AABB.contains_refl b, by simp⟩
  | cons a l ih =>
    intro b
    simp only [List.foldl_cons]
    obtain ⟨h1, h2⟩ := ih (box_merge b (box_tri a.tri))
    constructor
    · exact AABB.contains_trans h1 (box_merge_contains_left _ _)
    · intro x hx
      rcases List.mem_cons.mp hx with rfl | hx
      · exact AABB.contains_trans h1 (box_merge_contains_right _ _)
      · exact h2 x hx

/-- The bounds of a nonempty range contain the box of every item in it. -/
theorem itemsBounds_contains {l : List Item} {x : Item} (hx : x ∈ l) :
    AABB.contains (itemsBounds l) (box_tri x.tri) := by
  cases l with
  | nil => cases hx
  | cons a t =>
    unfold itemsBounds
    rcases List.mem_cons.mp hx with rfl | hx
    · exact (foldBounds_contains t (box_tri x.tri)).1
    · exact (foldBounds_contains t (box_tri a.tri)).2 x hx

/-- A box above the seed and every folded item box is above the fold. -/
theorem foldBounds_le (B : AABB) :
    ∀ (t : List Item) (b : AABB), AABB.contains B b →
      (∀ x ∈ t, AABB.contains B (box_tri x.tri)) →
      AABB.contains B (t.foldl (fun acc j => box_merge acc (box_tri j.tri)) b) := by
  intro t
  induction t with
  | nil => intro b hb _; exact hb
  | cons c t ih =>
    intro b hb hall
    simp only [List.foldl_cons]
    exact ih _ (box_merge_le hb (hall c (List.mem_cons_self c t)))
      fun x hx => hall x (List.mem_cons_of_mem c hx)

/-- A box containing every item of a nonempty range contains the range
bounds. -/
theorem itemsBounds_le {l : List Item} {B : AABB} (hne : l ≠ [])
    (h : ∀ x ∈ l, AABB.contains B (box_tri x.tri)) :
    AABB.contains B (itemsBounds l) := by
  cases l with
  | nil => exact absurd rfl hne
  | cons a t =>
    unfold itemsBounds
    exact foldBounds_le B t _ (h a (List.mem_cons_self a t))
      fun x hx => h x (List.mem_cons_of_mem a hx)

/-- Structural well-formedness of a BVH: every node box contains its
children boxes (internal) or its owned triangle boxes (leaf). -/
def BVHWF : BVHNode → Prop
  | .leaf b tris _ => ∀ t ∈ tris, AABB.contains b (box_tri t)
  | .node b l r =>
    AABB.contains b l.bounds ∧ AABB.contains b r.bounds ∧ BVHWF l ∧ BVHWF r

/-- The bounds stored by build are exactly the fold of the range. -/
theorem build_bounds (items : List Item) :
    (build items).bounds = itemsBounds items := by
  rw [build.eq_def]
  by_cases h : items.length ≤ LEAF_SIZE
  · rw [dif_pos h]
    rfl
  · rw [dif_neg h]
    rfl

/-- Every tree built by build is well-formed. -/
theorem build_wf : ∀ (n : ℕ) (items : List Item), items.length = n →
    BVHWF (build items) := by
  intro n
  induction n using Nat.strong_induction_on with
  | _ n IH =>
    intro items hlen
    rw [build.eq_def]
    by_cases h4 : items.length ≤ LEAF_SIZE
    · rw [dif_pos h4]
      intro t ht
      obtain ⟨it, hit, rfl⟩ := List.mem_map.mp ht
      exact itemsBounds_contains hit
    · rw [dif_neg h4]
      obtain ⟨hs1, hs2⟩ := buildSplit_bounds items h4
      have hslen := buildSorted_length items
      have hperm := buildSorted_perm items
      have htk : ((buildSorted items).take (buildSplit items)).length < n := by
        simp only [List.length_take, List.length_drop, hslen]
        omega
      have hdr : ((buildSorted items).drop (buildSplit items)).length < n := by
        simp only [List.length_take, List.length_drop, hslen]
        omega
      refine ⟨?_, ?_, IH _ htk _ rfl, IH _ hdr _ rfl⟩
      · rw [build_bounds]
        refine itemsBounds_le ?_ ?_
        · refine List.ne_nil_of_length_pos ?_
          rw [List.length_take, hslen]
          exact lt_min (by omega) (by omega)
        · intro x hx
          exact itemsBounds_contains
            (hperm.mem_iff.mp (List.mem_of_mem_take hx))
      · rw [build_bounds]
        refine itemsBounds_le ?_ ?_
        · refine List.ne_nil_of_length_pos ?_
          rw [List.length_drop, hslen]
          omega
        · intro x hx
          exact itemsBounds_contains
            (hperm.mem_iff.mp (List.mem_of_mem_drop hx))

/-- All nodes of a subtree, the subtree root first. -/
def nodesOf : BVHNode → List BVHNode
  | .leaf b tris mats => [.leaf b tris mats]
  | .node b l r => .node b l r :: (nodesOf l ++ nodesOf r)

/-- Well-formedness gives the containment property at every node of the
tree. -/
theorem wf_nodes {n : BVHNode} (hwf : BVHWF n) :
    ∀ m ∈ nodesOf n,
      (∀ b l r, m = BVHNode.node b l r →
        AABB.contains b l.bounds ∧ AABB.contains b r.bounds) ∧
      (∀ b tris mats, m = BVHNode.leaf b tris mats →
        ∀ t ∈ tris, AABB.contains b (box_tri t)) := by
  induction n with
  | leaf b tris mats =>
    intro m hm
    simp only [nodesOf, List.mem_singleton] at hm
    subst hm
    constructor
    · intro b' l r h
      cases h
    · intro b' tris' mats' h
      cases h
      exact hwf
  | node b l r ihl ihr =>
    intro m hm
    simp only [nodesOf, List.mem_cons, List.mem_append] at hm
    rcases hm with rfl | hm | hm
    · constructor
      · intro b' l' r' h
        cases h
        exact ⟨hwf.1, hwf.2.1⟩
      · intro b' tris' mats' h
        cases h
    · exact ihl hwf.2.2.1 m hm
    · exact ihr hwf.2.2.2 m hm

/-- C5: in every BVH built from at least one triangle, each internal node's
AABB contains the AABBs of both of its children, and each leaf's AABB
contains the AABBs of all triangles stored in the leaf. -/
theorem c5_bounds_containment (ms : List Model)
    (hn : 1 ≤ (modelItems ms).length) :
    ∀ m ∈ nodesOf (bvh_build ms),
      (∀ b l r, m = BVHNode.node b l r →
        AABB.contains b l.bounds ∧ AABB.contains b r.bounds) ∧
      (∀ b tris mats, m = BVHNode.leaf b tris mats →
        ∀ t ∈ tris, AABB.contains b (box_tri t)) :=
  wf_nodes (build_wf (modelItems ms).length (modelItems ms) rfl)

/-- Witness for C5: a one-triangle model builds a single leaf whose box
contains the triangle box. -/
theorem c5_bounds_containment_witness :
    1 ≤ (modelItems [⟨[⟨vec3 0 0 0, vec3 1 0 0, vec3 0 1 0⟩], 5⟩]).length ∧
    ∀ m ∈ nodesOf (bvh_build [⟨[⟨vec3 0 0 0, vec3 1 0 0, vec3 0 1 0⟩], 5⟩]),
      (∀ b l r, m = BVHNode.node b l r →
        AABB.contains b l.bounds ∧ AABB.contains b r.bounds) ∧
      (∀ b tris mats, m = BVHNode.leaf b tris mats →
        ∀ t ∈ tris, AABB.contains b (box_tri t)) := by
  refine ⟨by decide, ?_⟩
  exact c5_bounds_containment [⟨[⟨vec3 0 0 0, vec3 1 0 0, vec3 0 1 0⟩], 5⟩] (by decide)

/-- The weight of a stack decomposes over its head. -/
theorem stackWeight_cons (n : BVHNode) (rest : List BVHNode) :
    stackWeight (n :: rest) = n.size + stackWeight rest := by
  simp [stackWeight]

/-- The largest stack occupancy (sp value) reached by bvh_intersect from a
given loop state, mirroring bvhLoop step by step (with the same abstracted
pruning test bh). -/
def bvhMaxSp (bh : AABB → ℚ → Bool) (ray : BvhRay) :
    List BVHNode → HitRecord → Bool → ℕ
  | [], _, _ => 0
  | .leaf b tris mats :: rest, rec, hitacc =>
    if bh b rec.t then
      max (rest.length + 1)
        (bvhMaxSp bh ray rest (runTris ray (tris.zip mats) rec hitacc).2
          (runTris ray (tris.zip mats) rec hitacc).1)
    else max (rest.length + 1) (bvhMaxSp bh ray rest rec hitacc)
  | .node b lft rgt :: rest, rec, hitacc =>
    if bh b rec.t then
      if rest.length + 2 < STACK_SIZE then
        max (rest.length + 1) (bvhMaxSp bh ray (rgt :: lft :: rest) rec hitacc)
      else
        max (rest.length + 1) (bvhMaxSp bh ray rest rec hitacc)
    else max (rest.length + 1) (bvhMaxSp bh ray rest rec hitacc)
termination_by stack _ _ => stackWeight stack
decreasing_by
  all_goals first
    | (simp [stackWeight, BVHNode.size]; done)
    | (simp [stackWeight, BVHNode.size]; omega)
    | (simp [stackWeight, BVHNode.size]; omega)

/-- C8: when popping an internal node whose children no longer fit on the
fixed stack (sp + 2 not below STACK_SIZE), both children are silently
dropped and the loop continues with the remaining stack, still producing a
result; and the stack occupancy never exceeds 1027 slots, so the guarded
pushes never write outside the STACK_SIZE = 1028 array. -/
theorem c8_stack_overflow_drops (ray : BvhRay) (rec : HitRecord) (hitacc : Bool)
    (b : AABB) (lft rgt : BVHNode) (rest : List BVHNode) :
    (box_hit b ray (1 / 1000) rec.t = true →
      ¬ rest.length + 2 < STACK_SIZE →
      bvhLoop (fun bb t => box_hit bb ray (1 / 1000) t) ray
          (BVHNode.node b lft rgt :: rest) rec hitacc =
        bvhLoop (fun bb t => box_hit bb ray (1 / 1000) t) ray rest rec hitacc) ∧
    (∀ (stack : List BVHNode) (rec1 : HitRecord) (h1 : Bool),
      stack.length ≤ 1027 →
      bvhMaxSp (fun bb t => box_hit bb ray (1 / 1000) t) ray stack rec1 h1 ≤ 1027) := by
  constructor
  · intro hbox hcap
    rw [bvhLoop.eq_def]
    dsimp only []
    rw [if_pos hbox, if_neg hcap]
  · have key : ∀ (w : ℕ) (stack : List BVHNode) (rec1 : HitRecord) (h1 : Bool),
        stackWeight stack ≤ w → stack.length ≤ 1027 →
        bvhMaxSp (fun bb t => box_hit bb ray (1 / 1000) t) ray stack rec1 h1 ≤ 1027 := by
      intro w
      induction w with
      | zero =>
        intro stack rec1 h1 hw hlen
        cases stack with
        | nil => rw [bvhMaxSp.eq_def]; dsimp only []; omega
        | cons n rest =>
          exfalso
          have := BVHNode.size_pos n
          rw [stackWeight_cons] at hw
          omega
      | succ w IHw =>
        intro stack rec1 h1 hw hlen
        cases stack with
        | nil => rw [bvhMaxSp.eq_def]; dsimp only []; omega
        | cons n rest =>
          rw [stackWeight_cons] at hw
          have hrest : rest.length ≤ 1026 := by
            simp only [List.length_cons] at hlen
            omega
          cases n with
          | leaf bb tris mats =>
            have hsz : (BVHNode.leaf bb tris mats).size = 1 := rfl
            rw [bvhMaxSp.eq_def]
            dsimp only []
            by_cases hbox : box_hit bb ray (1 / 1000) rec1.t
            · rw [if_pos hbox]
              have hm := IHw rest
                (runTris ray (tris.zip mats) rec1 h1).2
                (runTris ray (tris.zip mats) rec1 h1).1 (by omega) (by omega)
              omega
            · rw [if_neg hbox]
              have hm := IHw rest rec1 h1 (by omega) (by omega)
              omega
          | node bb lft1 rgt1 =>
            have hsz : (BVHNode.node bb lft1 rgt1).size =
                1 + lft1.size + rgt1.size := rfl
            rw [bvhMaxSp.eq_def]
            dsimp only []
            by_cases hbox : box_hit bb ray (1 / 1000) rec1.t
            · rw [if_pos hbox]
              by_cases hcap : rest.length + 2 < STACK_SIZE
              · rw [if_pos hcap]
                have hw2 : stackWeight (rgt1 :: lft1 :: rest) ≤ w := by
                  rw [stackWeight_cons, stackWeight_cons]
                  omega
                have hm := IHw (rgt1 :: lft1 :: rest) rec1 h1 hw2
                  (by simp only [List.length_cons]
                      unfold STACK_SIZE at hcap
                      omega)
                omega
              · rw [if_neg hcap]
                have hm := IHw rest rec1 h1 (by omega) (by omega)
                omega
            · rw [if_neg hbox]
              have hm := IHw rest rec1 h1 (by omega) (by omega)
              omega
    exact fun stack rec1 h1 hlen => key (stackWeight stack) stack rec1 h1 (le_refl _) hlen

/-- Witness for C8: a full stack of 1026 dummy leaves below an internal node
whose box passes the slab test; the children are dropped and the bound
theorem applies at the same stack. -/
theorem c8_stack_overflow_drops_witness :
    (box_hit ⟨vec3 (-1) (-1) (-1), vec3 1 1 1⟩
        ⟨vec3 (-5) (-5) (-5), vec3 1 1 1, vec3 1 1 1⟩ (1 / 1000)
        (⟨false, 1000000000000000000000000000000, vec3 0 0 0, vec3 0 0 0, 0,
          vec3 0 0 0⟩ : HitRecord).t = true ∧
     ¬ (List.replicate 1026 (BVHNode.leaf ⟨vec3 0 0 0, vec3 0 0 0⟩ [] [])).length + 2 <
        STACK_SIZE) ∧
    bvhLoop
        (fun bb t => box_hit bb ⟨vec3 (-5) (-5) (-5), vec3 1 1 1, vec3 1 1 1⟩ (1 / 1000) t)
        ⟨vec3 (-5) (-5) (-5), vec3 1 1 1, vec3 1 1 1⟩
        (BVHNode.node ⟨vec3 (-1) (-1) (-1), vec3 1 1 1⟩
            (BVHNode.leaf ⟨vec3 0 0 0, vec3 0 0 0⟩ [] [])
            (BVHNode.leaf ⟨vec3 0 0 0, vec3 0 0 0⟩ [] []) ::
          List.replicate 1026 (BVHNode.leaf ⟨vec3 0 0 0, vec3 0 0 0⟩ [] []))
        ⟨false, 1000000000000000000000000000000, vec3 0 0 0, vec3 0 0 0, 0, vec3 0 0 0⟩
        false =
      bvhLoop
        (fun bb t => box_hit bb ⟨vec3 (-5) (-5) (-5), vec3 1 1 1, vec3 1 1 1⟩ (1 / 1000) t)
        ⟨vec3 (-5) (-5) (-5), vec3 1 1 1, vec3 1 1 1⟩
        (List.replicate 1026 (BVHNode.leaf ⟨vec3 0 0 0, vec3 0 0 0⟩ [] []))
        ⟨false, 1000000000000000000000000000000, vec3 0 0 0, vec3 0 0 0, 0, vec3 0 0 0⟩
        false := by
  refine ⟨⟨by decide, by rw [List.length_replicate]; decide⟩, ?_⟩
  exact (c8_stack_overflow_drops _ _ _ _ _ _ _).1 (by decide)
    (by rw [List.length_replicate]; decide)

/-- The t-limit-independent part of the Moeller-Trumbore acceptance: the
determinant, barycentric and epsilon guards of intersect_triangle, without
the comparison against the current best t. -/
def triBase (ray : BvhRay) (tri : Triangle) : Prop :=
  1 / 1000000 ≤ fabsf (triA ray tri) ∧
  0 ≤ triU ray tri ∧ triU ray tri ≤ 1 ∧
  0 ≤ triV ray tri ∧ triU ray tri + triV ray tri ≤ 1 ∧
  EPSILON ≤ triT ray tri

instance (ray : BvhRay) (tri : Triangle) : Decidable (triBase ray tri) := by
  unfold triBase; infer_instance

/-- Full acceptance is the base conditions plus the strict comparison
against the current best t. -/
theorem triAccept_iff (ray : BvhRay) (tri : Triangle) (tlim : ℚ) :
    triAccept ray tri tlim ↔ triBase ray tri ∧ triT ray tri < tlim := by
  unfold triAccept triBase
  tauto

/-- The pair list tested by bruteForce for a flat item range. -/
def itemPairs (items : List Item) : List (Triangle × Material) :=
  items.map fun it => (it.tri, it.mat)

/-- The ray parameters of the base-accepted triangles of a pair list. -/
def acceptTs (ray : BvhRay) (l : List (Triangle × Material)) : List ℚ :=
  l.filterMap fun p => if triBase ray p.1 then some (triT ray p.1) else none

/-- The closest-hit parameter reached by running a pair list against an
initial best t0: the minimum of t0 and all base-accepted parameters. -/
def bestT (ray : BvhRay) (l : List (Triangle × Material)) (t0 : ℚ) : ℚ :=
  (acceptTs ray l).foldl min t0

/-- A minimum fold never exceeds its initial value. -/
theorem foldl_min_le_init : ∀ (l : List ℚ) (t0 : ℚ), l.foldl min t0 ≤ t0 := by
  intro l
  induction l with
  | nil => intro t0; exact le_refl t0
  | cons a l ih =>
    intro t0
    simp only [List.foldl_cons]
    exact le_trans (ih (min t0 a)) (min_le_left t0 a)

/-- A minimum fold never exceeds any folded element. -/
theorem foldl_min_le_mem : ∀ (l : List ℚ) (t0 a : ℚ), a ∈ l →
    l.foldl min t0 ≤ a := by
  intro l
  induction l with
  | nil => intro t0 a ha; cases ha
  | cons b l ih =>
    intro t0 a ha
    simp only [List.foldl_cons]
    rcases List.mem_cons.mp ha with rfl | ha
    · exact le_trans (foldl_min_le_init l (min t0 a)) (min_le_right t0 a)
    · exact ih (min t0 b) a ha

/-- A minimum fold is invariant under permutation of the folded list. -/
theorem foldl_min_perm {l1 l2 : List ℚ} (h : l1.Perm l2) (t0 : ℚ) :
    l1.foldl min t0 = l2.foldl min t0 :=
  h.foldl_eq' (fun x _ y _ z => min_right_comm z x y) t0

/-- The closest-hit parameter never exceeds the initial best. -/
theorem bestT_le (ray : BvhRay) (l : List (Triangle × Material)) (t0 : ℚ) :
    bestT ray l t0 ≤ t0 :=
  foldl_min_le_init _ t0

/-- The closest-hit parameter never exceeds the parameter of any
base-accepted pair of the list. -/
theorem bestT_le_accept (ray : BvhRay) {l : List (Triangle × Material)}
    {p : Triangle × Material} (t0 : ℚ) (hp : p ∈ l) (hb : triBase ray p.1) :
    bestT ray l t0 ≤ triT ray p.1 := by
  refine foldl_min_le_mem _ t0 _ ?_
  unfold acceptTs
  exact List.mem_filterMap.mpr ⟨p, hp, by rw [if_pos hb]⟩

/-- The closest-hit parameter is invariant under permutation of the pair
list. -/
theorem bestT_perm (ray : BvhRay) {l1 l2 : List (Triangle × Material)}
    (h : l1.Perm l2) (t0 : ℚ) : bestT ray l1 t0 = bestT ray l2 t0 :=
  foldl_min_perm (h.filterMap _) t0

/-- Unfolding bestT over a head pair: an accepted head lowers the running
best to its own parameter, any other head leaves it unchanged. -/
theorem bestT_cons (ray : BvhRay) (p : Triangle × Material)
    (l : List (Triangle × Material)) (t0 : ℚ) :
    bestT ray (p :: l) t0 =
      if triBase ray p.1 then bestT ray l (min t0 (triT ray p.1))
      else bestT ray l t0 := by
  unfold bestT acceptTs
  by_cases hb : triBase ray p.1
  · rw [if_pos hb]
    simp only [List.filterMap_cons, if_pos hb, List.foldl_cons]
  · rw [if_neg hb]
    simp only [List.filterMap_cons, if_neg hb]

/-- One step of the runTris fold. -/
theorem runTris_cons (ray : BvhRay) (p : Triangle × Material)
    (l : List (Triangle × Material)) (rec : HitRecord) (hitacc : Bool) :
    runTris ray (p :: l) rec hitacc =
      runTris ray l (intersect_triangle ray p.1 p.2 rec).2
        ((intersect_triangle ray p.1 p.2 rec).1 || hitacc) := by
  unfold runTris
  rw [List.foldl_cons]

/-- runTris decomposes over list append: the second segment continues from
the state the first segment produced. -/
theorem runTris_append (ray : BvhRay) (l1 l2 : List (Triangle × Material))
    (rec : HitRecord) (hitacc : Bool) :
    runTris ray (l1 ++ l2) rec hitacc =
      runTris ray l2 (runTris ray l1 rec hitacc).2 (runTris ray l1 rec hitacc).1 := by
  unfold runTris
  rw [List.foldl_append]

/-- A pair list with no acceptance against the current record leaves the
fold state untouched. -/
theorem runTris_inert (ray : BvhRay) :
    ∀ (l : List (Triangle × Material)) (rec : HitRecord) (hitacc : Bool),
      (∀ p ∈ l, ¬ triAccept ray p.1 rec.t) →
      runTris ray l rec hitacc = (hitacc, rec) := by
  intro l
  induction l with
  | nil => intro rec hitacc _; rfl
  | cons p l ih =>
    intro rec hitacc h
    rw [runTris_cons, intersect_triangle_eq,
      if_neg (h p (List.mem_cons_self p l))]
    simp only [Bool.false_or]
    exact ih rec hitacc fun q hq => h q (List.mem_cons_of_mem p hq)

/-- Full characterization of runTris: the final best t is bestT; the color
field is untouched; the returned flag adds whether the best improved; if it
did not improve the state is fully unchanged, and if it did, the final
record is the hitWrite of some base-accepted pair attaining the minimum. -/
theorem runTris_char (ray : BvhRay) :
    ∀ (l : List (Triangle × Material)) (rec : HitRecord) (hitacc : Bool),
      (runTris ray l rec hitacc).2.t = bestT ray l rec.t ∧
      (runTris ray l rec hitacc).2.color = rec.color ∧
      (runTris ray l rec hitacc).1 =
        (hitacc || decide (bestT ray l rec.t < rec.t)) ∧
      (bestT ray l rec.t = rec.t → runTris ray l rec hitacc = (hitacc, rec)) ∧
      (bestT ray l rec.t < rec.t → ∃ p ∈ l, triBase ray p.1 ∧
        triT ray p.1 = bestT ray l rec.t ∧
        (runTris ray l rec hitacc).2 =
          ⟨true, bestT ray l rec.t,
            add ray.origin (mul ray.direction (bestT ray l rec.t)),
            norm (cross (triEdge1 p.1) (triEdge2 p.1)), p.2, rec.color⟩) := by
  intro l
  induction l with
  | nil =>
    intro rec hitacc
    refine ⟨rfl, rfl, ?_, fun _ => rfl, fun h => absurd h (lt_irrefl _)⟩
    have : ¬ bestT ray [] rec.t < rec.t := lt_irrefl _
    rw [decide_eq_false this, Bool.or_false]
    rfl
  | cons p l ih =>
    intro rec hitacc
    rw [runTris_cons, intersect_triangle_eq]
    by_cases hacc : triAccept ray p.1 rec.t
    · obtain ⟨hb, hlt⟩ := (triAccept_iff ray p.1 rec.t).mp hacc
      rw [if_pos hacc]
      simp only [Bool.true_or]
      have ht1 : (hitWrite ray p.1 p.2 rec).t = triT ray p.1 := rfl
      have hc1 : (hitWrite ray p.1 p.2 rec).color = rec.color := rfl
      have hbest : bestT ray (p :: l) rec.t =
          bestT ray l (hitWrite ray p.1 p.2 rec).t := by
        rw [bestT_cons, if_pos hb, min_eq_right (le_of_lt hlt), ht1]
      have hble : bestT ray (p :: l) rec.t < rec.t := by
        rw [hbest, ht1]
        exact lt_of_le_of_lt (bestT_le ray l (triT ray p.1)) hlt
      obtain ⟨ih1, ih2, ih3, ih4, ih5⟩ := ih (hitWrite ray p.1 p.2 rec) true
      refine ⟨?_, ?_, ?_, ?_, ?_⟩
      · rw [ih1, hbest]
      · rw [ih2, hc1]
      · rw [ih3, decide_eq_true hble, Bool.or_true, Bool.true_or]
      · intro heq
        exact absurd heq (ne_of_lt hble)
      · intro _
        by_cases h2 : bestT ray l (hitWrite ray p.1 p.2 rec).t =
            (hitWrite ray p.1 p.2 rec).t
        · refine ⟨p, List.mem_cons_self p l, hb, ?_, ?_⟩
          · rw [hbest, h2, ht1]
          · rw [ih4 h2]
            show hitWrite ray p.1 p.2 rec = _
            rw [hbest, h2, ht1]
            rfl
        · have h2lt : bestT ray l (hitWrite ray p.1 p.2 rec).t <
              (hitWrite ray p.1 p.2 rec).t :=
            lt_of_le_of_ne (bestT_le ray l _) h2
          obtain ⟨q, hq, hqb, hqt, hqrec⟩ := ih5 h2lt
          refine ⟨q, List.mem_cons_of_mem p hq, hqb, ?_, ?_⟩
          · rw [hqt, hbest]
          · rw [hqrec, hc1, hbest]
    · rw [if_neg hacc]
      simp only [Bool.false_or]
      have hbest : bestT ray (p :: l) rec.t = bestT ray l rec.t := by
        by_cases hb : triBase ray p.1
        · have hnlt : ¬ triT ray p.1 < rec.t := fun hlt =>
            hacc ((triAccept_iff ray p.1 rec.t).mpr ⟨hb, hlt⟩)
          rw [bestT_cons, if_pos hb, min_eq_left (not_lt.mp hnlt)]
        · rw [bestT_cons, if_neg hb]
      obtain ⟨ih1, ih2, ih3, ih4, ih5⟩ := ih rec hitacc
      refine ⟨?_, ?_, ?_, ?_, ?_⟩
      · rw [ih1, hbest]
      · exact ih2
      · rw [ih3, hbest]
      · intro heq
        rw [hbest] at heq
        exact ih4 heq
      · intro hblt
        rw [hbest] at hblt
        obtain ⟨q, hq, hqb, hqt, hqrec⟩ := ih5 hblt
        exact ⟨q, List.mem_cons_of_mem p hq, hqb, by rw [hqt, hbest],
          by rw [hqrec, hbest]⟩

/-- The determinant guard of intersect_triangle makes the determinant
nonzero. -/
theorem triA_ne_zero {ray : BvhRay} {tri : Triangle}
    (h : 1 / 1000000 ≤ fabsf (triA ray tri)) : triA ray tri ≠ 0 := by
  intro h0
  rw [h0] at h
  unfold fabsf at h
  norm_num at h

/-- The Moeller-Trumbore solution is exact: with a nonzero determinant the
point origin + t * direction equals the barycentric combination of the
triangle vertices, componentwise. -/
theorem mt_point (ray : BvhRay) (tri : Triangle) (ha : triA ray tri ≠ 0) :
    (ray.origin.x + triT ray tri * ray.direction.x =
      tri.v0.x + triU ray tri * (tri.v1.x - tri.v0.x) +
        triV ray tri * (tri.v2.x - tri.v0.x)) ∧
    (ray.origin.y + triT ray tri * ray.direction.y =
      tri.v0.y + triU ray tri * (tri.v1.y - tri.v0.y) +
        triV ray tri * (tri.v2.y - tri.v0.y)) ∧
    (ray.origin.z + triT ray tri * ray.direction.z =
      tri.v0.z + triU ray tri * (tri.v1.z - tri.v0.z) +
        triV ray tri * (tri.v2.z - tri.v0.z)) := by
  have ha' : triA ray tri ≠ 0 := ha
  simp only [triA, triH, triEdge1, triEdge2, dot, cross, sub] at ha'
  refine ⟨?_, ?_, ?_⟩ <;>
  · simp only [triT, triU, triV, triF, triQ, triS, triH, triA, triEdge1,
      triEdge2, dot, cross, sub]
    field_simp
    ring

/-- A convex combination of three values stays between any common bounds. -/
theorem convex3_bounds {u v a0 a1 a2 lo hi : ℚ} (hu : 0 ≤ u) (hv : 0 ≤ v)
    (huv : u + v ≤ 1) (h0 : lo ≤ a0) (h1 : lo ≤ a1) (h2 : lo ≤ a2)
    (g0 : a0 ≤ hi) (g1 : a1 ≤ hi) (g2 : a2 ≤ hi) :
    lo ≤ a0 + u * (a1 - a0) + v * (a2 - a0) ∧
      a0 + u * (a1 - a0) + v * (a2 - a0) ≤ hi := by
  constructor
  · have p1 : 0 ≤ (1 - u - v) * (a0 - lo) :=
      mul_nonneg (by linarith) (by linarith)
    have p2 : 0 ≤ u * (a1 - lo) := mul_nonneg hu (by linarith)
    have p3 : 0 ≤ v * (a2 - lo) := mul_nonneg hv (by linarith)
    nlinarith [p1, p2, p3]
  · have p1 : 0 ≤ (1 - u - v) * (hi - a0) :=
      mul_nonneg (by linarith) (by linarith)
    have p2 : 0 ≤ u * (hi - a1) := mul_nonneg hu (by linarith)
    have p3 : 0 ≤ v * (hi - a2) := mul_nonneg hv (by linarith)
    nlinarith [p1, p2, p3]

/-- One axis of the slab test: if the point at parameter t lies between the
two slab planes and the inverse direction is the exact reciprocal, then t
lies between the two plane parameters. -/
theorem slab_axis {m M o d i t : ℚ} (hd : d ≠ 0) (hi : i = 1 / d)
    (h1 : m ≤ o + t * d) (h2 : o + t * d ≤ M) :
    min ((m - o) * i) ((M - o) * i) ≤ t ∧
      t ≤ max ((m - o) * i) ((M - o) * i) := by
  rcases lt_or_gt_of_ne hd with hneg | hpos
  · have hM : (M - o) * i ≤ t := by
      rw [hi, mul_one_div, div_le_iff_of_neg hneg]
      linarith
    have hm : t ≤ (m - o) * i := by
      rw [hi, mul_one_div, le_div_iff_of_neg hneg]
      linarith
    exact ⟨le_trans (min_le_right _ _) hM, le_trans hm (le_max_left _ _)⟩
  · have hm : (m - o) * i ≤ t := by
      rw [hi, mul_one_div, div_le_iff hpos]
      linarith
    have hM : t ≤ (M - o) * i := by
      rw [hi, mul_one_div, le_div_iff hpos]
      linarith
    exact ⟨le_trans (min_le_left _ _) hm, le_trans hM (le_max_right _ _)⟩

/-- Containment of a triangle box bounds every vertex coordinate. -/
theorem contains_box_tri {B : AABB} {tri : Triangle}
    (h : AABB.contains B (box_tri tri)) :
    (B.min.x ≤ tri.v0.x ∧ B.min.x ≤ tri.v1.x ∧ B.min.x ≤ tri.v2.x ∧
      tri.v0.x ≤ B.max.x ∧ tri.v1.x ≤ B.max.x ∧ tri.v2.x ≤ B.max.x) ∧
    (B.min.y ≤ tri.v0.y ∧ B.min.y ≤ tri.v1.y ∧ B.min.y ≤ tri.v2.y ∧
      tri.v0.y ≤ B.max.y ∧ tri.v1.y ≤ B.max.y ∧ tri.v2.y ≤ B.max.y) ∧
    (B.min.z ≤ tri.v0.z ∧ B.min.z ≤ tri.v1.z ∧ B.min.z ≤ tri.v2.z ∧
      tri.v0.z ≤ B.max.z ∧ tri.v1.z ≤ B.max.z ∧ tri.v2.z ≤ B.max.z) := by
  obtain ⟨h1, h2, h3, h4, h5, h6⟩ := h
  simp only [box_tri, fminf_eq_min, fmaxf_eq_max] at h1 h2 h3 h4 h5 h6
  refine ⟨⟨?_, ?_, ?_, ?_, ?_, ?_⟩, ⟨?_, ?_, ?_, ?_, ?_, ?_⟩,
    ⟨?_, ?_, ?_, ?_, ?_, ?_⟩⟩
  · exact le_trans h1 (le_trans (min_le_left _ _) (min_le_left _ _))
  · exact le_trans h1 (le_trans (min_le_left _ _) (min_le_right _ _))
  · exact le_trans h1 (min_le_right _ _)
  · exact le_trans (le_trans (le_max_left _ _) (le_max_left _ _)) h4
  · exact le_trans (le_trans (le_max_right _ _) (le_max_left _ _)) h4
  · exact le_trans (le_max_right _ _) h4
  · exact le_trans h2 (le_trans (min_le_left _ _) (min_le_left _ _))
  · exact le_trans h2 (le_trans (min_le_left _ _) (min_le_right _ _))
  · exact le_trans h2 (min_le_right _ _)
  · exact le_trans (le_trans (le_max_left _ _) (le_max_left _ _)) h5
  · exact le_trans (le_trans (le_max_right _ _) (le_max_left _ _)) h5
  · exact le_trans (le_max_right _ _) h5
  · exact le_trans h3 (le_trans (min_le_left _ _) (min_le_left _ _))
  · exact le_trans h3 (le_trans (min_le_left _ _) (min_le_right _ _))
  · exact le_trans h3 (min_le_right _ _)
  · exact le_trans (le_trans (le_max_left _ _) (le_max_left _ _)) h6
  · exact le_trans (le_trans (le_max_right _ _) (le_max_left _ _)) h6
  · exact le_trans (le_max_right _ _) h6

/-- The slab test written without intermediate lets. -/
theorem box_hit_eq (box : AABB) (r : BvhRay) (tmin tmax : ℚ) :
    box_hit box r tmin tmax =
      decide (fmaxf (fmaxf (fmaxf tmin
          (fminf ((box.min.x - r.origin.x) * r.inv_direction.x)
                 ((box.max.x - r.origin.x) * r.inv_direction.x)))
          (fminf ((box.min.y - r.origin.y) * r.inv_direction.y)
                 ((box.max.y - r.origin.y) * r.inv_direction.y)))
          (fminf ((box.min.z - r.origin.z) * r.inv_direction.z)
                 ((box.max.z - r.origin.z) * r.inv_direction.z)) ≤
        fminf (fminf (fminf tmax
          (fmaxf ((box.min.x - r.origin.x) * r.inv_direction.x)
                 ((box.max.x - r.origin.x) * r.inv_direction.x)))
          (fmaxf ((box.min.y - r.origin.y) * r.inv_direction.y)
                 ((box.max.y - r.origin.y) * r.inv_direction.y)))
          (fmaxf ((box.min.z - r.origin.z) * r.inv_direction.z)
                 ((box.max.z - r.origin.z) * r.inv_direction.z))) := rfl

/-- Completeness of the box pruning test: a box containing a base-accepted
triangle whose parameter lies inside [0.001, tlim) passes the slab test on
that interval. -/
theorem box_hit_of_accept (B : AABB) (ray : BvhRay) (tri : Triangle)
    (tlim : ℚ)
    (hdx : ray.direction.x ≠ 0) (hdy : ray.direction.y ≠ 0)
    (hdz : ray.direction.z ≠ 0)
    (hix : ray.inv_direction.x = 1 / ray.direction.x)
    (hiy : ray.inv_direction.y = 1 / ray.direction.y)
    (hiz : ray.inv_direction.z = 1 / ray.direction.z)
    (hcont : AABB.contains B (box_tri tri))
    (hbase : triBase ray tri) (hlow : 1 / 1000 ≤ triT ray tri)
    (hlim : triT ray tri < tlim) :
    box_hit B ray (1 / 1000) tlim = true := by
  obtain ⟨hdet, hu0, hu1, hv0, huv, hte⟩ := hbase
  have ha : triA ray tri ≠ 0 := triA_ne_zero hdet
  obtain ⟨px, py, pz⟩ := mt_point ray tri ha
  obtain ⟨⟨cx0, cx1, cx2, gx0, gx1, gx2⟩, ⟨cy0, cy1, cy2, gy0, gy1, gy2⟩,
    ⟨cz0, cz1, cz2, gz0, gz1, gz2⟩⟩ := contains_box_tri hcont
  have bx := convex3_bounds hu0 hv0 huv cx0 cx1 cx2 gx0 gx1 gx2
  have by' := convex3_bounds hu0 hv0 huv cy0 cy1 cy2 gy0 gy1 gy2
  have bz := convex3_bounds hu0 hv0 huv cz0 cz1 cz2 gz0 gz1 gz2
  rw [← px] at bx
  rw [← py] at by'
  rw [← pz] at bz
  have sx := slab_axis hdx hix bx.1 bx.2
  have sy := slab_axis hdy hiy by'.1 by'.2
  have sz := slab_axis hdz hiz bz.1 bz.2
  rw [box_hit_eq, decide_eq_true_eq]
  simp only [fminf_eq_min, fmaxf_eq_max]
  refine le_trans (max_le (max_le (max_le hlow sx.1) sy.1) sz.1)
    (le_min (le_min (le_min (le_of_lt hlim) sx.2) sy.2) sz.2)

/-- The triangle/material pairs of a subtree in the order bvh_intersect
visits them: a popped internal node pushes left below right, so the right
subtree is visited first. -/
def visitPairs : BVHNode → List (Triangle × Material)
  | .leaf _ tris mats => tris.zip mats
  | .node _ l r => visitPairs r ++ visitPairs l

/-- The pairs of a whole traversal stack, top of stack first. -/
def stackPairs : List BVHNode → List (Triangle × Material)
  | [] => []
  | n :: rest => visitPairs n ++ stackPairs rest

/-- In a well-formed subtree the box of every visited triangle is inside
the subtree root box. -/
theorem pairs_bounds : ∀ (nd : BVHNode), BVHWF nd →
    ∀ p ∈ visitPairs nd, AABB.contains nd.bounds (box_tri p.1) := by
  intro nd
  induction nd with
  | leaf b tris mats =>
    intro hwf p hp
    obtain ⟨t, m⟩ := p
    exact hwf t (List.mem_zip hp).1
  | node b l r ihl ihr =>
    intro hwf p hp
    simp only [visitPairs, List.mem_append] at hp
    simp only [BVHNode.bounds]
    rcases hp with hp | hp
    · exact AABB.contains_trans hwf.2.1 (ihr hwf.2.2.2 p hp)
    · exact AABB.contains_trans hwf.1 (ihl hwf.2.2.1 p hp)

/-- A stack never holds more entries than its total subtree weight. -/
theorem length_le_stackWeight : ∀ (stack : List BVHNode),
    stack.length ≤ stackWeight stack := by
  intro stack
  induction stack with
  | nil => exact le_refl 0
  | cons n rest ih =>
    rw [stackWeight_cons]
    have := BVHNode.size_pos n
    simp only [List.length_cons]
    omega

/-- The traversal visits exactly the built range, as a permutation of its
flat pair list. -/
theorem build_pairs_perm : ∀ (n : ℕ) (items : List Item), items.length = n →
    (visitPairs (build items)).Perm (itemPairs items) := by
  intro n
  induction n using Nat.strong_induction_on with
  | _ n IH =>
    intro items hlen
    rw [build.eq_def]
    by_cases h4 : items.length ≤ LEAF_SIZE
    · rw [dif_pos h4]
      show ((items.map Item.tri).zip (items.map Item.mat)).Perm _
      rw [List.zip_map']
      exact List.Perm.refl _
    · rw [dif_neg h4]
      obtain ⟨hs1, hs2⟩ := buildSplit_bounds items h4
      have hslen := buildSorted_length items
      have hperm := buildSorted_perm items
      have htk : ((buildSorted items).take (buildSplit items)).length < n := by
        simp only [List.length_take, hslen]
        omega
      have hdr : ((buildSorted items).drop (buildSplit items)).length < n := by
        simp only [List.length_drop, hslen]
        omega
      show ((visitPairs (build ((buildSorted items).drop (buildSplit items)))) ++
        (visitPairs (build ((buildSorted items).take (buildSplit items))))).Perm _
      refine List.Perm.trans
        (List.Perm.append (IH _ hdr _ rfl) (IH _ htk _ rfl)) ?_
      refine List.Perm.trans (List.perm_append_comm) ?_
      unfold itemPairs
      rw [List.map_take, List.map_drop, List.take_append_drop]
      exact (buildSorted_perm items).map _

/-- A built subtree over L items has at most 2L - 1 nodes. -/
theorem build_size : ∀ (n : ℕ) (items : List Item), items.length = n →
    1 ≤ items.length → (build items).size ≤ 2 * items.length - 1 := by
  intro n
  induction n using Nat.strong_induction_on with
  | _ n IH =>
    intro items hlen h1
    rw [build.eq_def]
    by_cases h4 : items.length ≤ LEAF_SIZE
    · rw [dif_pos h4]
      show 1 ≤ 2 * items.length - 1
      omega
    · rw [dif_neg h4]
      obtain ⟨hs1, hs2⟩ := buildSplit_bounds items h4
      have hslen := buildSorted_length items
      have htk : ((buildSorted items).take (buildSplit items)).length < n := by
        simp only [List.length_take, hslen]
        omega
      have hdr : ((buildSorted items).drop (buildSplit items)).length < n := by
        simp only [List.length_drop, hslen]
        omega
      have htk1 : 1 ≤ ((buildSorted items).take (buildSplit items)).length := by
        simp only [List.length_take, hslen]
        exact le_min hs1 (by omega)
      have hdr1 : 1 ≤ ((buildSorted items).drop (buildSplit items)).length := by
        simp only [List.length_drop, hslen]
        omega
      have hl := IH _ htk _ rfl htk1
      have hr := IH _ hdr _ rfl hdr1
      show 1 + _ + _ ≤ 2 * items.length - 1
      simp only [List.length_take, List.length_drop, hslen] at hl hr htk1 hdr1
      omega

/-- The traversal loop computes exactly the sequential triangle fold over
the visit order, provided every subtree on the stack is well-formed, the
total weight keeps the stack below capacity, the inverse direction is the
exact reciprocal of a componentwise nonzero direction, and every
base-accepted triangle parameter is at least the 0.001 lower slab bound. -/
theorem bvhLoop_eq_run (ray : BvhRay)
    (hdx : ray.direction.x ≠ 0) (hdy : ray.direction.y ≠ 0)
    (hdz : ray.direction.z ≠ 0)
    (hix : ray.inv_direction.x = 1 / ray.direction.x)
    (hiy : ray.inv_direction.y = 1 / ray.direction.y)
    (hiz : ray.inv_direction.z = 1 / ray.direction.z) :
    ∀ (w : ℕ) (stack : List BVHNode) (rec : HitRecord) (hitacc : Bool),
      stackWeight stack ≤ w → stackWeight stack ≤ 1026 →
      (∀ nd ∈ stack, BVHWF nd) →
      (∀ p ∈ stackPairs stack, triBase ray p.1 → 1 / 1000 ≤ triT ray p.1) →
      bvhLoop (fun bb t => box_hit bb ray (1 / 1000) t) ray stack rec hitacc =
        runTris ray (stackPairs stack) rec hitacc := by
  intro w
  induction w with
  | zero =>
    intro stack rec hitacc hw _ _ _
    cases stack with
    | nil => rw [bvhLoop.eq_def]; rfl
    | cons n rest =>
      exfalso
      have := BVHNode.size_pos n
      rw [stackWeight_cons] at hw
      omega
  | succ w IHw =>
    intro stack rec hitacc hw hcap hwf hlow
    cases stack with
    | nil => rw [bvhLoop.eq_def]; rfl
    | cons n rest =>
      rw [stackWeight_cons] at hw hcap
      cases n with
      | leaf bb tris mats =>
        have hszl : (BVHNode.leaf bb tris mats).size = 1 := rfl
        have hpairs : stackPairs (BVHNode.leaf bb tris mats :: rest) =
            (tris.zip mats) ++ stackPairs rest := rfl
        have hrest_wf : ∀ nd ∈ rest, BVHWF nd :=
          fun nd hnd => hwf nd (List.mem_cons_of_mem _ hnd)
        have hrest_low : ∀ p ∈ stackPairs rest,
            triBase ray p.1 → 1 / 1000 ≤ triT ray p.1 := by
          intro p hp hb
          refine hlow p ?_ hb
          rw [hpairs]
          exact List.mem_append_right _ hp
        rw [bvhLoop.eq_def]
        dsimp only []
        by_cases hbox : box_hit bb ray (1 / 1000) rec.t = true
        · rw [if_pos hbox, hpairs, runTris_append]
          exact IHw rest _ _ (by omega) (by omega) hrest_wf hrest_low
        · rw [if_neg hbox]
          have hinert : ∀ p ∈ tris.zip mats, ¬ triAccept ray p.1 rec.t := by
            rintro ⟨t, m⟩ hp hacc
            obtain ⟨hb, hlt⟩ := (triAccept_iff ray t rec.t).mp hacc
            have hmem : ((t, m) : Triangle × Material) ∈
                stackPairs (BVHNode.leaf bb tris mats :: rest) := by
              rw [hpairs]
              exact List.mem_append_left _ hp
            have hlo := hlow _ hmem hb
            have hc : AABB.contains bb (box_tri t) :=
              pairs_bounds _ (hwf _ (List.mem_cons_self _ _)) ⟨t, m⟩ hp
            exact hbox (box_hit_of_accept bb ray t rec.t hdx hdy hdz
              hix hiy hiz hc hb hlo hlt)
          rw [hpairs, runTris_append, runTris_inert ray _ rec hitacc hinert]
          exact IHw rest rec hitacc (by omega) (by omega) hrest_wf hrest_low
      | node bb lft rgt =>
        have hszn : (BVHNode.node bb lft rgt).size =
            1 + lft.size + rgt.size := rfl
        have hn_wf := hwf _ (List.mem_cons_self (BVHNode.node bb lft rgt) rest)
        have hpairs : stackPairs (BVHNode.node bb lft rgt :: rest) =
            (visitPairs rgt ++ visitPairs lft) ++ stackPairs rest := rfl
        have hsp : stackPairs (rgt :: lft :: rest) =
            stackPairs (BVHNode.node bb lft rgt :: rest) := by
          show visitPairs rgt ++ (visitPairs lft ++ stackPairs rest) =
            visitPairs (BVHNode.node bb lft rgt) ++ stackPairs rest
          show visitPairs rgt ++ (visitPairs lft ++ stackPairs rest) =
            (visitPairs rgt ++ visitPairs lft) ++ stackPairs rest
          rw [List.append_assoc]
        have hrest_wf : ∀ nd ∈ rest, BVHWF nd :=
          fun nd hnd => hwf nd (List.mem_cons_of_mem _ hnd)
        have hrest_low : ∀ p ∈ stackPairs rest,
            triBase ray p.1 → 1 / 1000 ≤ triT ray p.1 := by
          intro p hp hb
          refine hlow p ?_ hb
          rw [hpairs]
          exact List.mem_append_right _ hp
        rw [bvhLoop.eq_def]
        dsimp only []
        by_cases hbox : box_hit bb ray (1 / 1000) rec.t = true
        · rw [if_pos hbox]
          have hlp := BVHNode.size_pos lft
          have hrp := BVHNode.size_pos rgt
          have hcap2 : rest.length + 2 < STACK_SIZE := by
            have hlen := length_le_stackWeight rest
            unfold STACK_SIZE
            omega
          rw [if_pos hcap2]
          have hgoal := IHw (rgt :: lft :: rest) rec hitacc
            (by rw [stackWeight_cons, stackWeight_cons]; omega)
            (by rw [stackWeight_cons, stackWeight_cons]; omega)
            (by
              intro nd hnd
              rcases List.mem_cons.mp hnd with rfl | hnd
              · exact hn_wf.2.2.2
              · rcases List.mem_cons.mp hnd with rfl | hnd
                · exact hn_wf.2.2.1
                · exact hwf nd (List.mem_cons_of_mem _ hnd))
            (by
              intro p hp hb
              rw [hsp] at hp
              exact hlow p hp hb)
          rw [hgoal, hsp]
        · rw [if_neg hbox]
          have hinert : ∀ p ∈ visitPairs rgt ++ visitPairs lft,
              ¬ triAccept ray p.1 rec.t := by
            intro p hp hacc
            obtain ⟨hb, hlt⟩ := (triAccept_iff ray p.1 rec.t).mp hacc
            have hmem : p ∈ stackPairs (BVHNode.node bb lft rgt :: rest) := by
              rw [hpairs]
              exact List.mem_append_left _ hp
            have hlo := hlow _ hmem hb
            have hc : AABB.contains bb (box_tri p.1) :=
              pairs_bounds (BVHNode.node bb lft rgt) hn_wf p hp
            exact hbox (box_hit_of_accept bb ray p.1 rec.t hdx hdy hdz
              hix hiy hiz hc hb hlo hlt)
          rw [hpairs, runTris_append, runTris_inert ray _ rec hitacc hinert]
          exact IHw rest rec hitacc (by omega) (by omega) hrest_wf hrest_low

/-- C1 counterexample: one triangle hit at t = 1/2000. The parameter passes
the EPSILON = 0.0001 acceptance guard, but the traversal prunes the leaf
with a slab interval below its 0.001 lower bound: bvh_intersect reports no
hit while brute-forcing the flat triangle list reports the hit, so the two
disagree on an initialized record. -/
theorem c1_counterexample :
    (bvh_intersect
        (bvh_build [⟨[⟨vec3 (-1) (-1) 0, vec3 1 (-1) 0, vec3 (-1) 1 0⟩], 5⟩])
        ⟨vec3 (-1/10) (-1/10) (1/2000), vec3 (1/10) (1/10) (-1), vec3 10 10 (-1)⟩
        ⟨false, 1000000000000000000000000000000, vec3 0 0 0, vec3 0 0 0, 0,
          vec3 0 0 0⟩).1 = false ∧
    (bruteForce
        ⟨vec3 (-1/10) (-1/10) (1/2000), vec3 (1/10) (1/10) (-1), vec3 10 10 (-1)⟩
        (modelItems [⟨[⟨vec3 (-1) (-1) 0, vec3 1 (-1) 0, vec3 (-1) 1 0⟩], 5⟩])
        ⟨false, 1000000000000000000000000000000, vec3 0 0 0, vec3 0 0 0, 0,
          vec3 0 0 0⟩).1 = true ∧
    triAccept
        ⟨vec3 (-1/10) (-1/10) (1/2000), vec3 (1/10) (1/10) (-1), vec3 10 10 (-1)⟩
        ⟨vec3 (-1) (-1) 0, vec3 1 (-1) 0, vec3 (-1) 1 0⟩
        1000000000000000000000000000000 := by
  refine ⟨?_, by decide, by decide⟩
  have hbuild : bvh_build [⟨[⟨vec3 (-1) (-1) 0, vec3 1 (-1) 0, vec3 (-1) 1 0⟩], 5⟩] =
      BVHNode.leaf
        (itemsBounds (modelItems [⟨[⟨vec3 (-1) (-1) 0, vec3 1 (-1) 0, vec3 (-1) 1 0⟩], 5⟩]))
        ((modelItems [⟨[⟨vec3 (-1) (-1) 0, vec3 1 (-1) 0, vec3 (-1) 1 0⟩], 5⟩]).map Item.tri)
        ((modelItems [⟨[⟨vec3 (-1) (-1) 0, vec3 1 (-1) 0, vec3 (-1) 1 0⟩], 5⟩]).map Item.mat) := by
    unfold bvh_build
    rw [build.eq_def, dif_pos (by decide)]
  unfold bvh_intersect
  rw [hbuild, bvhLoop.eq_def]
  dsimp only []
  rw [if_neg (by decide), bvhLoop.eq_def]

/-- C1 (amended): over n triangles (1 <= n <= 500), for a ray whose
direction has nonzero components, whose inverse direction is the exact
componentwise reciprocal, against a record initialized with hit = false and
t = "infinity", and provided every base-accepted triangle parameter is at
least the 0.001 lower slab bound of the traversal, bvh_intersect agrees
with brute force on the returned flag and on the record fields t, hit,
point and color; it returns true exactly when some triangle of the flat
list satisfies the acceptance conditions; the returned t is a lower bound
of all accepted parameters and is attained by some base-accepted triangle
whose material is the one stored; and on a miss the record is returned
unchanged. -/
theorem c1_closest_hit (ms : List Model) (ray : BvhRay) (rec : HitRecord)
    (hn : 1 ≤ (modelItems ms).length) (hcap : (modelItems ms).length ≤ 500)
    (hdx : ray.direction.x ≠ 0) (hdy : ray.direction.y ≠ 0)
    (hdz : ray.direction.z ≠ 0)
    (hix : ray.inv_direction.x = 1 / ray.direction.x)
    (hiy : ray.inv_direction.y = 1 / ray.direction.y)
    (hiz : ray.inv_direction.z = 1 / ray.direction.z)
    (hinit : rec.hit = false ∧ rec.t = 1000000000000000000000000000000)
    (hlow : ∀ p ∈ itemPairs (modelItems ms), triBase ray p.1 →
      1 / 1000 ≤ triT ray p.1) :
    ((bvh_intersect (bvh_build ms) ray rec).1 =
        (bruteForce ray (modelItems ms) rec).1 ∧
      (bvh_intersect (bvh_build ms) ray rec).2.t =
        (bruteForce ray (modelItems ms) rec).2.t ∧
      (bvh_intersect (bvh_build ms) ray rec).2.hit =
        (bruteForce ray (modelItems ms) rec).2.hit ∧
      (bvh_intersect (bvh_build ms) ray rec).2.point =
        (bruteForce ray (modelItems ms) rec).2.point ∧
      (bvh_intersect (bvh_build ms) ray rec).2.color =
        (bruteForce ray (modelItems ms) rec).2.color) ∧
    ((bvh_intersect (bvh_build ms) ray rec).1 = true ↔
      ∃ p ∈ itemPairs (modelItems ms), triAccept ray p.1 rec.t) ∧
    (∀ p ∈ itemPairs (modelItems ms), triAccept ray p.1 rec.t →
      (bvh_intersect (bvh_build ms) ray rec).2.t ≤ triT ray p.1) ∧
    ((bvh_intersect (bvh_build ms) ray rec).1 = true →
      ∃ p ∈ itemPairs (modelItems ms), triBase ray p.1 ∧
        triT ray p.1 = (bvh_intersect (bvh_build ms) ray rec).2.t ∧
        (bvh_intersect (bvh_build ms) ray rec).2.mat = p.2) ∧
    ((bvh_intersect (bvh_build ms) ray rec).1 = false →
      (bvh_intersect (bvh_build ms) ray rec).2 = rec) := by
  have hroot_wf : BVHWF (build (modelItems ms)) :=
    build_wf (modelItems ms).length (modelItems ms) rfl
  have hperm : (visitPairs (build (modelItems ms))).Perm
      (itemPairs (modelItems ms)) :=
    build_pairs_perm (modelItems ms).length (modelItems ms) rfl
  have hsz : (build (modelItems ms)).size ≤ 2 * (modelItems ms).length - 1 :=
    build_size (modelItems ms).length (modelItems ms) rfl hn
  have h0 : stackWeight [] = 0 := rfl
  have hW : stackWeight [build (modelItems ms)] ≤ 1026 := by
    rw [stackWeight_cons]
    omega
  have hsp1 : stackPairs [build (modelItems ms)] =
      visitPairs (build (modelItems ms)) := by
    show visitPairs (build (modelItems ms)) ++ stackPairs [] = _
    rw [show stackPairs [] = [] from rfl, List.append_nil]
  have hBperm : (stackPairs [build (modelItems ms)]).Perm
      (itemPairs (modelItems ms)) := by
    rw [hsp1]
    exact hperm
  have hB : bvh_intersect (bvh_build ms) ray rec =
      runTris ray (stackPairs [build (modelItems ms)]) rec false := by
    unfold bvh_intersect bvh_build
    refine bvhLoop_eq_run ray hdx hdy hdz hix hiy hiz
      (stackWeight [build (modelItems ms)]) _ rec false (le_refl _) hW ?_ ?_
    · intro nd hnd
      rw [List.mem_singleton] at hnd
      subst hnd
      exact hroot_wf
    · intro p hp hb
      exact hlow p (hBperm.mem_iff.mp hp) hb
  have hR : bruteForce ray (modelItems ms) rec =
      runTris ray (itemPairs (modelItems ms)) rec false := rfl
  rw [hB, hR]
  obtain ⟨b1, b2, b3, b4, b5⟩ :=
    runTris_char ray (stackPairs [build (modelItems ms)]) rec false
  obtain ⟨r1, r2, r3, r4, r5⟩ :=
    runTris_char ray (itemPairs (modelItems ms)) rec false
  have hbt : bestT ray (stackPairs [build (modelItems ms)]) rec.t =
      bestT ray (itemPairs (modelItems ms)) rec.t := bestT_perm ray hBperm rec.t
  rcases eq_or_lt_of_le (bestT_le ray (itemPairs (modelItems ms)) rec.t)
    with heq | hlt
  · -- no improvement: both runs return the untouched state
    have hBr := b4 (by rw [hbt]; exact heq)
    have hRr := r4 heq
    have hnone : ∀ p ∈ itemPairs (modelItems ms), ¬ triAccept ray p.1 rec.t := by
      intro p hp hacc
      obtain ⟨hb, hplt⟩ := (triAccept_iff ray p.1 rec.t).mp hacc
      have := bestT_le_accept ray rec.t hp hb
      linarith [heq.symm ▸ lt_of_le_of_lt this hplt]
    refine ⟨?_, ?_, ?_, ?_, ?_⟩
    · rw [hBr, hRr]
      exact ⟨rfl, rfl, rfl, rfl, rfl⟩
    · rw [hBr]
      constructor
      · intro h
        exact Bool.noConfusion h
      · rintro ⟨p, hp, hacc⟩
        exact absurd hacc (hnone p hp)
    · intro p hp hacc
      exact absurd hacc (hnone p hp)
    · rw [hBr]
      intro h
      exact Bool.noConfusion h
    · rw [hBr]
      intro _
      rfl
  · -- the best improved: both runs end in the record of a minimizer
    have hlts : bestT ray (stackPairs [build (modelItems ms)]) rec.t < rec.t := by
      rw [hbt]
      exact hlt
    obtain ⟨p, hps, hpb, hpt, hprec⟩ := b5 hlts
    obtain ⟨q, hq, hqb, hqt, hqrec⟩ := r5 hlt
    have hflagB : (runTris ray (stackPairs [build (modelItems ms)]) rec false).1 =
        true := by
      rw [b3, decide_eq_true hlts, Bool.or_true]
    refine ⟨?_, ?_, ?_, ?_, ?_⟩
    · refine ⟨?_, ?_, ?_, ?_, ?_⟩
      · rw [b3, r3, hbt]
      · rw [b1, r1, hbt]
      · rw [hprec, hqrec]
      · rw [hprec, hqrec]
        show add ray.origin (mul ray.direction _) =
          add ray.origin (mul ray.direction _)
        rw [hbt]
      · rw [hprec, hqrec]
    · constructor
      · intro _
        refine ⟨q, hq, (triAccept_iff ray q.1 rec.t).mpr ⟨hqb, ?_⟩⟩
        rw [hqt]
        exact hlt
      · intro _
        exact hflagB
    · intro p2 hp2 hacc2
      obtain ⟨hb2, _⟩ := (triAccept_iff ray p2.1 rec.t).mp hacc2
      rw [b1, hbt]
      exact bestT_le_accept ray rec.t hp2 hb2
    · intro _
      refine ⟨p, hBperm.mem_iff.mp hps, hpb, ?_, ?_⟩
      · rw [hpt, b1]
      · rw [hprec]
    · intro h
      rw [hflagB] at h
      exact absurd h (by decide)

/-- Witness for C1: a single triangle hit at t = 5 by a diagonal ray with
exact reciprocal inverse direction; every hypothesis of the amended theorem
holds by evaluation and the theorem applies. -/
theorem c1_closest_hit_witness :
    (1 ≤ (modelItems [⟨[⟨vec3 (-1) (-1) 0, vec3 1 (-1) 0, vec3 (-1) 1 0⟩], 3⟩]).length ∧
      (modelItems [⟨[⟨vec3 (-1) (-1) 0, vec3 1 (-1) 0, vec3 (-1) 1 0⟩], 3⟩]).length ≤ 500 ∧
      (⟨vec3 (-5) (-5) 5, vec3 1 1 (-1), vec3 1 1 (-1)⟩ : BvhRay).direction.x ≠ 0 ∧
      (⟨vec3 (-5) (-5) 5, vec3 1 1 (-1), vec3 1 1 (-1)⟩ : BvhRay).direction.y ≠ 0 ∧
      (⟨vec3 (-5) (-5) 5, vec3 1 1 (-1), vec3 1 1 (-1)⟩ : BvhRay).direction.z ≠ 0 ∧
      (⟨vec3 (-5) (-5) 5, vec3 1 1 (-1), vec3 1 1 (-1)⟩ : BvhRay).inv_direction.x = 1 / (⟨vec3 (-5) (-5) 5, vec3 1 1 (-1), vec3 1 1 (-1)⟩ : BvhRay).direction.x ∧
      (⟨vec3 (-5) (-5) 5, vec3 1 1 (-1), vec3 1 1 (-1)⟩ : BvhRay).inv_direction.y = 1 / (⟨vec3 (-5) (-5) 5, vec3 1 1 (-1), vec3 1 1 (-1)⟩ : BvhRay).direction.y ∧
      (⟨vec3 (-5) (-5) 5, vec3 1 1 (-1), vec3 1 1 (-1)⟩ : BvhRay).inv_direction.z = 1 / (⟨vec3 (-5) (-5) 5, vec3 1 1 (-1), vec3 1 1 (-1)⟩ : BvhRay).direction.z ∧
      ((⟨false, 1000000000000000000000000000000, vec3 0 0 0, vec3 0 0 0, 0, vec3 0 0 0⟩ : HitRecord).hit = false ∧
        (⟨false, 1000000000000000000000000000000, vec3 0 0 0, vec3 0 0 0, 0, vec3 0 0 0⟩ : HitRecord).t = 1000000000000000000000000000000) ∧
      (∀ p ∈ itemPairs (modelItems [⟨[⟨vec3 (-1) (-1) 0, vec3 1 (-1) 0, vec3 (-1) 1 0⟩], 3⟩]), triBase (⟨vec3 (-5) (-5) 5, vec3 1 1 (-1), vec3 1 1 (-1)⟩ : BvhRay) p.1 →
        1 / 1000 ≤ triT (⟨vec3 (-5) (-5) 5, vec3 1 1 (-1), vec3 1 1 (-1)⟩ : BvhRay) p.1)) ∧
    (((bvh_intersect (bvh_build [⟨[⟨vec3 (-1) (-1) 0, vec3 1 (-1) 0, vec3 (-1) 1 0⟩], 3⟩]) (⟨vec3 (-5) (-5) 5, vec3 1 1 (-1), vec3 1 1 (-1)⟩ : BvhRay) (⟨false, 1000000000000000000000000000000, vec3 0 0 0, vec3 0 0 0, 0, vec3 0 0 0⟩ : HitRecord)).1 =
        (bruteForce (⟨vec3 (-5) (-5) 5, vec3 1 1 (-1), vec3 1 1 (-1)⟩ : BvhRay) (modelItems [⟨[⟨vec3 (-1) (-1) 0, vec3 1 (-1) 0, vec3 (-1) 1 0⟩], 3⟩]) (⟨false, 1000000000000000000000000000000, vec3 0 0 0, vec3 0 0 0, 0, vec3 0 0 0⟩ : HitRecord)).1 ∧
      (bvh_intersect (bvh_build [⟨[⟨vec3 (-1) (-1) 0, vec3 1 (-1) 0, vec3 (-1) 1 0⟩], 3⟩]) (⟨vec3 (-5) (-5) 5, vec3 1 1 (-1), vec3 1 1 (-1)⟩ : BvhRay) (⟨false, 1000000000000000000000000000000, vec3 0 0 0, vec3 0 0 0, 0, vec3 0 0 0⟩ : HitRecord)).2.t =
        (bruteForce (⟨vec3 (-5) (-5) 5, vec3 1 1 (-1), vec3 1 1 (-1)⟩ : BvhRay) (modelItems [⟨[⟨vec3 (-1) (-1) 0, vec3 1 (-1) 0, vec3 (-1) 1 0⟩], 3⟩]) (⟨false, 1000000000000000000000000000000, vec3 0 0 0, vec3 0 0 0, 0, vec3 0 0 0⟩ : HitRecord)).2.t ∧
      (bvh_intersect (bvh_build [⟨[⟨vec3 (-1) (-1) 0, vec3 1 (-1) 0, vec3 (-1) 1 0⟩], 3⟩]) (⟨vec3 (-5) (-5) 5, vec3 1 1 (-1), vec3 1 1 (-1)⟩ : BvhRay) (⟨false, 1000000000000000000000000000000, vec3 0 0 0, vec3 0 0 0, 0, vec3 0 0 0⟩ : HitRecord)).2.hit =
        (bruteForce (⟨vec3 (-5) (-5) 5, vec3 1 1 (-1), vec3 1 1 (-1)⟩ : BvhRay) (modelItems [⟨[⟨vec3 (-1) (-1) 0, vec3 1 (-1) 0, vec3 (-1) 1 0⟩], 3⟩]) (⟨false, 1000000000000000000000000000000, vec3 0 0 0, vec3 0 0 0, 0, vec3 0 0 0⟩ : HitRecord)).2.hit ∧
      (bvh_intersect (bvh_build [⟨[⟨vec3 (-1) (-1) 0, vec3 1 (-1) 0, vec3 (-1) 1 0⟩], 3⟩]) (⟨vec3 (-5) (-5) 5, vec3 1 1 (-1), vec3 1 1 (-1)⟩ : BvhRay) (⟨false, 1000000000000000000000000000000, vec3 0 0 0, vec3 0 0 0, 0, vec3 0 0 0⟩ : HitRecord)).2.point =
        (bruteForce (⟨vec3 (-5) (-5) 5, vec3 1 1 (-1), vec3 1 1 (-1)⟩ : BvhRay) (modelItems [⟨[⟨vec3 (-1) (-1) 0, vec3 1 (-1) 0, vec3 (-1) 1 0⟩], 3⟩]) (⟨false, 1000000000000000000000000000000, vec3 0 0 0, vec3 0 0 0, 0, vec3 0 0 0⟩ : HitRecord)).2.point ∧
      (bvh_intersect (bvh_build [⟨[⟨vec3 (-1) (-1) 0, vec3 1 (-1) 0, vec3 (-1) 1 0⟩], 3⟩]) (⟨vec3 (-5) (-5) 5, vec3 1 1 (-1), vec3 1 1 (-1)⟩ : BvhRay) (⟨false, 1000000000000000000000000000000, vec3 0 0 0, vec3 0 0 0, 0, vec3 0 0 0⟩ : HitRecord)).2.color =
        (bruteForce (⟨vec3 (-5) (-5) 5, vec3 1 1 (-1), vec3 1 1 (-1)⟩ : BvhRay) (modelItems [⟨[⟨vec3 (-1) (-1) 0, vec3 1 (-1) 0, vec3 (-1) 1 0⟩], 3⟩]) (⟨false, 1000000000000000000000000000000, vec3 0 0 0, vec3 0 0 0, 0, vec3 0 0 0⟩ : HitRecord)).2.color) ∧
    ((bvh_intersect (bvh_build [⟨[⟨vec3 (-1) (-1) 0, vec3 1 (-1) 0, vec3 (-1) 1 0⟩], 3⟩]) (⟨vec3 (-5) (-5) 5, vec3 1 1 (-1), vec3 1 1 (-1)⟩ : BvhRay) (⟨false, 1000000000000000000000000000000, vec3 0 0 0, vec3 0 0 0, 0, vec3 0 0 0⟩ : HitRecord)).1 = true ↔
      ∃ p ∈ itemPairs (modelItems [⟨[⟨vec3 (-1) (-1) 0, vec3 1 (-1) 0, vec3 (-1) 1 0⟩], 3⟩]), triAccept (⟨vec3 (-5) (-5) 5, vec3 1 1 (-1), vec3 1 1 (-1)⟩ : BvhRay) p.1 (⟨false, 1000000000000000000000000000000, vec3 0 0 0, vec3 0 0 0, 0, vec3 0 0 0⟩ : HitRecord).t) ∧
    (∀ p ∈ itemPairs (modelItems [⟨[⟨vec3 (-1) (-1) 0, vec3 1 (-1) 0, vec3 (-1) 1 0⟩], 3⟩]), triAccept (⟨vec3 (-5) (-5) 5, vec3 1 1 (-1), vec3 1 1 (-1)⟩ : BvhRay) p.1 (⟨false, 1000000000000000000000000000000, vec3 0 0 0, vec3 0 0 0, 0, vec3 0 0 0⟩ : HitRecord).t →
      (bvh_intersect (bvh_build [⟨[⟨vec3 (-1) (-1) 0, vec3 1 (-1) 0, vec3 (-1) 1 0⟩], 3⟩]) (⟨vec3 (-5) (-5) 5, vec3 1 1 (-1), vec3 1 1 (-1)⟩ : BvhRay) (⟨false, 1000000000000000000000000000000, vec3 0 0 0, vec3 0 0 0, 0, vec3 0 0 0⟩ : HitRecord)).2.t ≤ triT (⟨vec3 (-5) (-5) 5, vec3 1 1 (-1), vec3 1 1 (-1)⟩ : BvhRay) p.1) ∧
    ((bvh_intersect (bvh_build [⟨[⟨vec3 (-1) (-1) 0, vec3 1 (-1) 0, vec3 (-1) 1 0⟩], 3⟩]) (⟨vec3 (-5) (-5) 5, vec3 1 1 (-1), vec3 1 1 (-1)⟩ : BvhRay) (⟨false, 1000000000000000000000000000000, vec3 0 0 0, vec3 0 0 0, 0, vec3 0 0 0⟩ : HitRecord)).1 = true →
      ∃ p ∈ itemPairs (modelItems [⟨[⟨vec3 (-1) (-1) 0, vec3 1 (-1) 0, vec3 (-1) 1 0⟩], 3⟩]), triBase (⟨vec3 (-5) (-5) 5, vec3 1 1 (-1), vec3 1 1 (-1)⟩ : BvhRay) p.1 ∧
        triT (⟨vec3 (-5) (-5) 5, vec3 1 1 (-1), vec3 1 1 (-1)⟩ : BvhRay) p.1 = (bvh_intersect (bvh_build [⟨[⟨vec3 (-1) (-1) 0, vec3 1 (-1) 0, vec3 (-1) 1 0⟩], 3⟩]) (⟨vec3 (-5) (-5) 5, vec3 1 1 (-1), vec3 1 1 (-1)⟩ : BvhRay) (⟨false, 1000000000000000000000000000000, vec3 0 0 0, vec3 0 0 0, 0, vec3 0 0 0⟩ : HitRecord)).2.t ∧
        (bvh_intersect (bvh_build [⟨[⟨vec3 (-1) (-1) 0, vec3 1 (-1) 0, vec3 (-1) 1 0⟩], 3⟩]) (⟨vec3 (-5) (-5) 5, vec3 1 1 (-1), vec3 1 1 (-1)⟩ : BvhRay) (⟨false, 1000000000000000000000000000000, vec3 0 0 0, vec3 0 0 0, 0, vec3 0 0 0⟩ : HitRecord)).2.mat = p.2) ∧
    ((bvh_intersect (bvh_build [⟨[⟨vec3 (-1) (-1) 0, vec3 1 (-1) 0, vec3 (-1) 1 0⟩], 3⟩]) (⟨vec3 (-5) (-5) 5, vec3 1 1 (-1), vec3 1 1 (-1)⟩ : BvhRay) (⟨false, 1000000000000000000000000000000, vec3 0 0 0, vec3 0 0 0, 0, vec3 0 0 0⟩ : HitRecord)).1 = false →
      (bvh_intersect (bvh_build [⟨[⟨vec3 (-1) (-1) 0, vec3 1 (-1) 0, vec3 (-1) 1 0⟩], 3⟩]) (⟨vec3 (-5) (-5) 5, vec3 1 1 (-1), vec3 1 1 (-1)⟩ : BvhRay) (⟨false, 1000000000000000000000000000000, vec3 0 0 0, vec3 0 0 0, 0, vec3 0 0 0⟩ : HitRecord)).2 = (⟨false, 1000000000000000000000000000000, vec3 0 0 0, vec3 0 0 0, 0, vec3 0 0 0⟩ : HitRecord))) := by
  refine ⟨⟨by decide, by decide, by decide, by decide, by decide, by decide,
    by decide, by decide, by decide, by decide⟩, ?_⟩
  exact c1_closest_hit [⟨[⟨vec3 (-1) (-1) 0, vec3 1 (-1) 0, vec3 (-1) 1 0⟩], 3⟩] (⟨vec3 (-5) (-5) 5, vec3 1 1 (-1), vec3 1 1 (-1)⟩ : BvhRay) (⟨false, 1000000000000000000000000000000, vec3 0 0 0, vec3 0 0 0, 0, vec3 0 0 0⟩ : HitRecord)
    (by decide) (by decide) (by decide) (by decide) (by decide) (by decide)
    (by decide) (by decide) (by decide) (by decide)
